import Mathlib

/-!
Verification development for the Instagram single-post comments crawler
(`ig_crawler.py`).  The Python source is shallowly embedded: pure helpers
become Lean functions, the pagination loop of `IGCrawler.crawl_post_comments`
becomes a structurally recursive function over a script of page-fetch
outcomes, and file-system effects (checkpoint saves/clears, output writes)
are recorded as an explicit event trace.  Python `None`/falsiness is modelled
with `Option` plus explicit truthiness helpers; raised exceptions are
modelled with `Except`.
-/

namespace IGC

/-- Python truthiness of an optional string: `None` and `""` are falsy. -/
def pyTruthy : Option String → Bool
  | none => false
  | some s => !(s = "")

/-- Python `a or b` on optional strings: returns `b` whenever `a` is falsy. -/
def pyOrS (a b : Option String) : Option String :=
  if pyTruthy a then a else b

/-- Characters allowed inside a shortcode by the regex character class
covering everything except `/`, `?` and `#`. -/
def scChar (c : Char) : Bool :=
  !(c = '/') && !(c = '?') && !(c = '#')

/-- Consume an exact literal prefix of a character list, returning the rest. -/
def dropLit : List Char → List Char → Option (List Char)
  | [], cs => some cs
  | _ :: _, [] => none
  | l :: ls, c :: cs => if c = l then dropLit ls cs else none

/-- Match the kind segment of the post-URL regex, one of the three literal
alternatives followed by a slash. -/
def matchKind (cs : List Char) : Option (List Char) :=
  match dropLit "p/".data cs with
  | some rest => some rest
  | none =>
    match dropLit "reel/".data cs with
    | some rest => some rest
    | none => dropLit "tv/".data cs

/-- Try to match the full shortcode regex starting exactly at this position:
the literal host segment, a kind alternative, then a nonempty run of
shortcode characters (the capture group). -/
def matchHere (cs : List Char) : Option String :=
  match dropLit "instagram.com/".data cs with
  | none => none
  | some rest =>
    match matchKind rest with
    | none => none
    | some rest₂ =>
      let run := rest₂.takeWhile scChar
      if run.isEmpty then none else some (String.mk run)

/-- Regex search: try the match at every start position, leftmost wins. -/
def searchShortcode : List Char → Option String
  | [] => none
  | c :: cs =>
    match matchHere (c :: cs) with
    | some r => some r
    | none => searchShortcode cs

/-- Embedding of `extract_shortcode`: search the post URL for
`instagram.com/(p|reel|tv)/([^/?#]+)` and return the capture group. -/
def extract_shortcode (postUrl : String) : Option String :=
  searchShortcode postUrl.data

/-- Alphabet used by `shortcode_to_media_id`. -/
def scAlphabet : List Char :=
  "ABCDEFGHIJKLMNOPQRSTUVWXYZabcdefghijklmnopqrstuvwxyz0123456789-_".data

/-- Index of a character in the alphabet (`ValueError` becomes `none`). -/
def alphaIndex (c : Char) : Option Nat :=
  scAlphabet.indexOf? c

/-- Fold of `shortcode_to_media_id`: base-64 accumulate each character. -/
def mediaIdFold : List Char → Nat → Option Nat
  | [], acc => some acc
  | c :: cs, acc =>
    match alphaIndex c with
    | none => none
    | some i => mediaIdFold cs (acc * 64 + i)

/-- Embedding of `shortcode_to_media_id`: decode the shortcode over the fixed
64-character alphabet; a character outside the alphabet yields `none`. -/
def shortcode_to_media_id (shortcode : String) : Option String :=
  (mediaIdFold shortcode.data 0).map toString

/-- Word characters of the unresolved-placeholder regex class. -/
def isWordChar (c : Char) : Bool := c.isAlphanum || c = '_'

/-- After the opening brace and at least one word character: zero or more
further word characters followed by a closing brace. -/
def closesPlaceholder : List Char → Bool
  | [] => false
  | c :: rest => c = '\x7d' || (isWordChar c && closesPlaceholder rest)

/-- Directly after an opening brace: at least one word character, then the
rest of the placeholder body. -/
def opensPlaceholder : List Char → Bool
  | [] => false
  | c :: rest => isWordChar c && closesPlaceholder rest

/-- Scan for an occurrence of an opening brace starting a full placeholder. -/
def hasPlaceholderAux : List Char → Bool
  | [] => false
  | c :: rest => (c = '\x7b' && opensPlaceholder rest) || hasPlaceholderAux rest

/-- Embedding of the `re.search` for an unresolved placeholder of the form
`\x7b[a-zA-Z0-9_]+\x7d` inside a rendered string. -/
def hasPlaceholder (s : String) : Bool := hasPlaceholderAux s.data

/-- Substring test (`placeholder in value`). -/
def containsSub (s sub : String) : Bool := decide (List.IsInfix sub.data s.data)

/-- Left-to-right non-overlapping replacement of a nonempty pattern, with a
fuel argument bounding the scan (passing the scanned list's length makes it
total and exact). -/
def replaceFuel (pat rep : List Char) : Nat → List Char → List Char
  | 0, s => s
  | _ + 1, [] => []
  | fuel + 1, c :: rest =>
    match dropLit pat (c :: rest) with
    | some suffix => rep ++ replaceFuel pat rep fuel suffix
    | none => c :: replaceFuel pat rep fuel rest

/-- Python `value.replace(old, new)` on the strings used here (the pattern,
a brace-delimited placeholder, is never empty). -/
def pyReplace (s pat rep : String) : String :=
  String.mk (replaceFuel pat.data rep.data s.data.length s.data)

/-- Variable loop of `render_template` on a string: for each binding whose
placeholder occurs in the value, a `None` replacement drops the whole string,
otherwise all occurrences are substituted (values pre-stringified). -/
def substVars : List (String × Option String) → String → Option String
  | [], v => some v
  | (k, repl) :: rest, v =>
    let ph := "\x7b" ++ k ++ "\x7d"
    if containsSub v ph then
      match repl with
      | none => none
      | some r => substVars rest (pyReplace v ph r)
    else substVars rest v

/-- String case of `render_template`: substitute, then drop the string
entirely if any placeholder pattern remains. -/
def renderString (vars : List (String × Option String)) (v : String) : Option String :=
  match substVars vars v with
  | none => none
  | some r => if hasPlaceholder r then none else some r

/-- Nested template values: strings, mappings, sequences and scalars.  A
Python `None` result of rendering is the `none` of the `Option` return. -/
inductive JVal : Type where
  | s : String → JVal
  | dict : List (String × JVal) → JVal
  | arr : List JVal → JVal
  | num : Int → JVal

mutual

/-- Embedding of `render_template`: strings are substituted and dropped when
a placeholder remains, mappings and sequences are rendered entrywise with
dropped entries omitted, scalars pass through. -/
def render_template (vars : List (String × Option String)) : JVal → Option JVal
  | .s v => (renderString vars v).map JVal.s
  | .dict kvs => some (.dict (renderDict vars kvs))
  | .arr items => some (.arr (renderArr vars items))
  | .num n => some (.num n)

/-- Mapping case: keys whose rendered value is dropped are omitted. -/
def renderDict (vars : List (String × Option String)) :
    List (String × JVal) → List (String × JVal)
  | [] => []
  | (k, v) :: rest =>
    match render_template vars v with
    | none => renderDict vars rest
    | some rv => (k, rv) :: renderDict vars rest

/-- Sequence case: dropped elements are omitted (the list is compacted). -/
def renderArr (vars : List (String × Option String)) : List JVal → List JVal
  | [] => []
  | v :: rest =>
    match render_template vars v with
    | none => renderArr vars rest
    | some rv => rv :: renderArr vars rest

end

mutual

/-- A rendered value is clean when no string leaf anywhere in it still
contains a placeholder pattern. -/
def noPh : JVal → Bool
  | .s v => !hasPlaceholder v
  | .dict kvs => noPhDict kvs
  | .arr items => noPhArr items
  | .num _ => true

/-- Clean check over mapping entries. -/
def noPhDict : List (String × JVal) → Bool
  | [] => true
  | (_, v) :: rest => noPh v && noPhDict rest

/-- Clean check over sequence elements. -/
def noPhArr : List JVal → Bool
  | [] => true
  | v :: rest => noPh v && noPhArr rest

end

/-- Outcome of one attempt inside `request_with_retry`: a transport-level
exception, or an HTTP response with a status and a decoded payload. -/
inductive AttemptOutcome where
  | exn
  | resp (status : Nat) (payload : Nat)
deriving DecidableEq

/-- Statuses retried with linear backoff (`\x7b429, 500, 502, 503, 504\x7d`). -/
def retryableStatus (s : Nat) : Bool :=
  s = 429 || s = 500 || s = 502 || s = 503 || s = 504

/-- Attempt loop of `request_with_retry`.  `attempt` is the 1-based attempt
number, `rem` the number of loop iterations left; the result pairs the
returned payload (or `none`) with the list of sleeps performed, in order. -/
def requestAttempts (retryAttempts retryDelay : Nat) (f : Nat → AttemptOutcome) :
    Nat → Nat → Option Nat × List Nat
  | _, 0 => (none, [])
  | attempt, rem + 1 =>
    match f attempt with
    | .exn =>
      let tail := requestAttempts retryAttempts retryDelay f (attempt + 1) rem
      if attempt < retryAttempts then (tail.1, retryDelay :: tail.2) else tail
    | .resp status payload =>
      if status = 200 then (some payload, [])
      else if retryableStatus status then
        if attempt < retryAttempts then
          let tail := requestAttempts retryAttempts retryDelay f (attempt + 1) rem
          (tail.1, retryDelay * attempt :: tail.2)
        else (none, [])
      else (none, [])

/-- Embedding of `request_with_retry`: run the attempt loop from attempt 1
for the configured number of attempts.  Rate-limit sleeps and the
raw-response debug write are elided (neither affects control flow); retry
sleeps are recorded in the second component. -/
def request_with_retry (retryAttempts retryDelay : Nat) (f : Nat → AttemptOutcome) :
    Option Nat × List Nat :=
  requestAttempts retryAttempts retryDelay f 1 retryAttempts

/-- An attempt outcome the loop is willing to retry past: a transport
exception or a retryable HTTP status. -/
def retriableB : AttemptOutcome → Bool
  | .exn => true
  | .resp s _ => retryableStatus s

/-- Sleep performed after a failed attempt `j` that is retried: fixed delay
for exceptions, linear backoff for retryable statuses. -/
def sleepFor (d : Nat) (f : Nat → AttemptOutcome) (j : Nat) : Nat :=
  match f j with
  | .exn => d
  | .resp _ _ => d * j

/-- Page-info portion of a connection (`has_next_page`, `end_cursor`). -/
structure PageInfo where
  hasNextPage : Bool
  endCursor : Option String
deriving DecidableEq

/-- Page-info of a missing connection (the empty dict: every lookup falsy). -/
def defaultPageInfo : PageInfo := { hasNextPage := false, endCursor := none }

/-- Raw user dict fields read by `parse_user` (`owner`/`user` sub-objects). -/
structure RawUser where
  id : Option String
  pk : Option String
  username : Option String
  fullName : Option String
  isVerified : Option Bool
deriving DecidableEq

/-- Canonical user record produced by `parse_user`. -/
structure ParsedUser where
  id : Option String
  username : Option String
  fullName : Option String
  isVerified : Option Bool
deriving DecidableEq

/-- The empty dict fallback of `node.get("owner") or node.get("user") or \x7b\x7d`. -/
def emptyRawUser : RawUser :=
  { id := none, pk := none, username := none, fullName := none, isVerified := none }

/-- A raw comment node as read by `parse_comment_node` and the pagination
loop.  `threaded` models the optional `edge_threaded_comments` connection as
(count, edges, page_info); edges hold `edge.get("node")`, `none` standing for
a missing or falsy node.  Fields only copied into presentation output
(`created_at`, `like_count`, `giphy_media_info`) are elided: they do not feed
any control flow or key computation of the loop. -/
inductive Node : Type where
  | mk (id pk text commentText : Option String)
       (owner user : Option RawUser)
       (childCommentCount : Option Int)
       (threaded : Option (Option Int × List (Option Node) × PageInfo))

def Node.idF : Node → Option String
  | .mk i _ _ _ _ _ _ _ => i

def Node.pkF : Node → Option String
  | .mk _ p _ _ _ _ _ _ => p

def Node.textF : Node → Option String
  | .mk _ _ t _ _ _ _ _ => t

def Node.commentTextF : Node → Option String
  | .mk _ _ _ ct _ _ _ _ => ct

def Node.ownerF : Node → Option RawUser
  | .mk _ _ _ _ o _ _ _ => o

def Node.userF : Node → Option RawUser
  | .mk _ _ _ _ _ u _ _ => u

def Node.childCount : Node → Option Int
  | .mk _ _ _ _ _ _ c _ => c

def Node.threadedF : Node → Option (Option Int × List (Option Node) × PageInfo)
  | .mk _ _ _ _ _ _ _ t => t

/-- Count of the nested `edge_threaded_comments` connection, when present. -/
def Node.threadedCount (n : Node) : Option Int :=
  n.threadedF.bind (fun t => t.1)

/-- Embedding of `parse_user`: resolve the user sub-object (`owner` first,
then `user`, then the empty dict) and its id (`id` first, then `pk`). -/
def parse_user (node : Node) : ParsedUser :=
  let u := (node.ownerF.orElse (fun _ => node.userF)).getD emptyRawUser
  { id := pyOrS u.id u.pk, username := u.username,
    fullName := u.fullName, isVerified := u.isVerified }

/-- Canonical comment record built by `parse_comment_node`; `replies` is
populated later by the pagination loop, `parentId` only on replies. -/
inductive Comment : Type where
  | mk (id text : Option String) (user : ParsedUser) (isAuthor : Bool)
       (replyCount : Int) (replies : List Comment) (parentId : Option String)

def Comment.id : Comment → Option String
  | .mk i _ _ _ _ _ _ => i

def Comment.text : Comment → Option String
  | .mk _ t _ _ _ _ _ => t

def Comment.user : Comment → ParsedUser
  | .mk _ _ u _ _ _ _ => u

def Comment.isAuthor : Comment → Bool
  | .mk _ _ _ a _ _ _ => a

def Comment.replyCount : Comment → Int
  | .mk _ _ _ _ rc _ _ => rc

def Comment.replies : Comment → List Comment
  | .mk _ _ _ _ _ rs _ => rs

def Comment.parentId : Comment → Option String
  | .mk _ _ _ _ _ _ p => p

/-- Replace the replies list (the loop mutates `parsed["replies"]`). -/
def Comment.withReplies : Comment → List Comment → Comment
  | .mk i t u a rc _ p, rs => .mk i t u a rc rs p

/-- Set the parent id (`reply["parent_id"] = parsed_id`). -/
def Comment.withParent : Comment → Option String → Comment
  | .mk i t u a rc rs _, p => .mk i t u a rc rs p

/-- Embedding of `parse_comment_node`: id from `id` then `pk` (truthy-or,
then stringified — identity on strings), text from `text` then
`comment_text`, authorship by textual id equality, reply count from the
nested threaded connection's count, else `child_comment_count`, else 0.
`replies` starts empty and `parent_id` unset. -/
def parse_comment_node (ownerId : Option String) (node : Node) : Comment :=
  let cid := pyOrS node.idF node.pkF
  let user := parse_user node
  let isAuthor := pyTruthy ownerId && pyTruthy user.id && decide (user.id = ownerId)
  let replyCount := ((node.threadedCount).orElse (fun _ => node.childCount)).getD 0
  .mk cid (pyOrS node.textF node.commentTextF) user isAuthor replyCount [] none

/-- Embedding of `extract_replies_from_node`: the inline threaded-replies
connection of a node, or empty edges and the empty page-info. -/
def extract_replies_from_node (n : Node) : List (Option Node) × PageInfo :=
  match n.threadedF with
  | none => ([], defaultPageInfo)
  | some (_, es, pi) => (es, pi)

/-- Endpoint descriptor fields that drive control flow: the request URL and
the `doc_id` used by the unconfigured-placeholder check. -/
structure Endpoint where
  url : Option String
  docId : Option String
deriving DecidableEq

/-- The repeated guard `not endpoint or str(endpoint.get("doc_id",
"")).startswith("YOUR_")`: returns the endpoint when it is usable. -/
def endpointConfigured : Option Endpoint → Option Endpoint
  | none => none
  | some ep => if (ep.docId.getD "").startsWith "YOUR_" then none else some ep

/-- Post identity fields consumed by the loop: the owner id (authorship
checks) and the media id.  URL/shortcode/caption fields are elided: they are
copied verbatim into output only. -/
structure PostInfo where
  ownerId : Option String
  mediaId : Option String
deriving DecidableEq

/-- Enumerated stop reasons of the pagination loop. -/
inductive StopReason where
  | no_payload
  | max_reached
  | no_more_pages
  | missing_cursor
  | cursor_stalled
  | interrupted
deriving DecidableEq

/-- Checkpoint dict written by `save_resume_state`, field for field. -/
structure ResumeState where
  post : PostInfo
  commentCount : Nat
  comments : List Comment
  seenCommentIds : Finset (Option String)
  cursor : Option String
  lastCursor : Option String
  pages : Nat
  expectedCommentCount : Option Int
  stopReason : Option StopReason
  complete : Bool
  updatedAt : String

/-- Final crawl result dict (`output_path`, added after the write, elided). -/
structure CrawlResult where
  post : PostInfo
  commentCount : Nat
  expectedCommentCount : Option Int
  fetchedAt : String
  comments : List Comment
  pages : Nat
  stopReason : Option StopReason

/-- File-system effects of the crawl, recorded as an event trace. -/
inductive FsEvent where
  | saveResume (s : ResumeState)
  | clearResume
  | saveOutput (r : CrawlResult)

/-- Raised exceptions that can escape `crawl_post_comments`, as far as the
typed payload model can express them.  The source has further uncaught
exception paths on truthy non-dict payload, page-info or node shapes
(`AttributeError` on their `.get` accesses), which lie outside this model's
input surface. -/
inductive CrawlError where
  | invalidPostUrl
  | endpointUrlMissing
deriving DecidableEq

/-- Configuration and per-crawl identity threaded through the loop. -/
structure Ctx where
  commentsEndpoint : Option Endpoint
  repliesEndpoint : Option Endpoint
  fetchReplies : Bool
  maxComments : Nat
  postInfo : PostInfo
  now : String

/-- Mutable state of the pagination loop. -/
structure LoopState where
  comments : List Comment
  seen : Finset (Option String)
  cursor : Option String
  lastCursor : Option String
  prevCursor : Option String
  backtrackUsed : Bool
  pages : Nat
  totalCount : Option Int

/-- Checkpoint record as assembled by a `save_resume_state` call site. -/
def mkResumeState (ctx : Ctx) (st : LoopState) (reason : Option StopReason)
    (complete : Bool) : ResumeState :=
  { post := ctx.postInfo, commentCount := st.comments.length, comments := st.comments,
    seenCommentIds := st.seen, cursor := st.cursor, lastCursor := st.lastCursor,
    pages := st.pages, expectedCommentCount := st.totalCount, stopReason := reason,
    complete := complete, updatedAt := ctx.now }

/-- One page of the replies connection, as extracted by
`extract_reply_connection` (the unused count is dropped at the call site). -/
structure ReplyPage where
  edges : List (Option Node)
  pageInfo : PageInfo

/-- One page of the comments connection, as extracted by
`extract_comment_connection`.  Each successful fetch is modelled as an
already-extracted well-formed connection, matching the documented connection
data model; truthy non-dict payload, page-info or node values — shapes the
source dereferences with `.get` and crashes on — are not representable
here. -/
structure Page where
  edges : List (Option Node)
  pageInfo : PageInfo
  count : Option Int

/-- The URL guard at the top of `build_request`: a missing or empty endpoint
URL raises `ValueError("Endpoint URL missing")`. -/
def buildRequestUrlCheck (ep : Endpoint) : Except CrawlError Unit :=
  if pyTruthy ep.url then .ok () else .error .endpointUrlMissing

/-- Inner for-loop shared by inline and fetched replies: parse each node,
set its parent, and append it if its id is truthy and unseen. -/
def addReplies (ownerId pid : Option String) (edges : List (Option Node))
    (seen : Finset (Option String)) (acc : List Comment) :
    Finset (Option String) × List Comment :=
  match edges with
  | [] => (seen, acc)
  | none :: rest => addReplies ownerId pid rest seen acc
  | some node :: rest =>
    let reply := (parse_comment_node ownerId node).withParent pid
    let rid := reply.id
    if pyTruthy rid && !(decide (rid ∈ seen)) then
      addReplies ownerId pid rest (insert rid seen) (acc ++ [reply])
    else addReplies ownerId pid rest seen acc

/-- Reply pagination sub-loop: each iteration consumes the next scripted
fetch outcome (`none` = request failure, breaking the loop), merges the
page's replies, and advances its own cursor until no next page, a falsy
cursor, or a stalled cursor. -/
def replyLoop (ownerId pid : Option String) :
    List (Option ReplyPage) → Finset (Option String) → List Comment →
    Option String → Option String →
    List (Option ReplyPage) × Finset (Option String) × List Comment
  | [], seen, acc, _, _ => ([], seen, acc)
  | none :: rest, seen, acc, _, _ => (rest, seen, acc)
  | some rp :: rest, seen, acc, _, lastC =>
    let merged := addReplies ownerId pid rp.edges seen acc
    if !rp.pageInfo.hasNextPage then (rest, merged.1, merged.2)
    else
      let rc := rp.pageInfo.endCursor
      if !pyTruthy rc || decide (rc = lastC) then (rest, merged.1, merged.2)
      else replyLoop ownerId pid rest merged.1 merged.2 rc rc

/-- State threaded through the processing of one page's edges. -/
structure PageState where
  comments : List Comment
  seen : Finset (Option String)
  rscript : List (Option ReplyPage)

/-- Reply-fetch phase for one comment: when the fetch condition holds and
the replies endpoint is usable, run the reply sub-loop (raising if the
endpoint URL is missing); an unconfigured endpoint makes the first fetch
return `none`, leaving the replies unchanged. -/
def fetchRepliesPhase (ctx : Ctx) (pid : Option String) (needFetch : Bool)
    (rc0 : Option String) (rscript : List (Option ReplyPage))
    (seen : Finset (Option String)) (replies : List Comment) :
    Except CrawlError (List (Option ReplyPage) × Finset (Option String) × List Comment) :=
  if needFetch then
    match endpointConfigured ctx.repliesEndpoint with
    | none => .ok (rscript, seen, replies)
    | some ep =>
      match buildRequestUrlCheck ep with
      | .error e => .error e
      | .ok _ => .ok (replyLoop ctx.postInfo.ownerId pid rscript seen replies rc0 none)
  else .ok (rscript, seen, replies)

/-- Body of the per-edge for-loop in `crawl_post_comments`: skip falsy
nodes, dedup by parsed id, merge inline replies, optionally page the reply
endpoint, append the assembled comment, then fire the max-comments check.
The returned flag reports whether `StopIteration` was raised. -/
def processEdge (ctx : Ctx) (st : PageState) (edge : Option Node) :
    Except CrawlError (PageState × Bool) :=
  match edge with
  | none => .ok (st, false)
  | some node =>
    let parsed := parse_comment_node ctx.postInfo.ownerId node
    let pid := parsed.id
    if pid ∈ st.seen then .ok (st, false)
    else
      let seen₁ := insert pid st.seen
      let repliesEnabled := ctx.fetchReplies && (endpointConfigured ctx.repliesEndpoint).isSome
      let inl := extract_replies_from_node node
      let merged :=
        if inl.1.isEmpty then (seen₁, ([] : List Comment))
        else addReplies ctx.postInfo.ownerId pid inl.1 seen₁ []
      let needFetch := repliesEnabled && pyTruthy pid &&
        (decide ((merged.2.length : Int) < parsed.replyCount) || inl.2.hasNextPage)
      let rc0 := if inl.2.hasNextPage then inl.2.endCursor else none
      match fetchRepliesPhase ctx pid needFetch rc0 st.rscript merged.1 merged.2 with
      | .error e => .error e
      | .ok (rs', seen₃, replies₂) =>
        let parsedFinal := parsed.withReplies replies₂
        let comments' := st.comments ++ [parsedFinal]
        let fired := !(ctx.maxComments = 0) && decide (ctx.maxComments ≤ seen₃.card)
        .ok (⟨comments', seen₃, rs'⟩, fired)

/-- The for-loop over a page's edges, stopping early when the max-comments
check fires. -/
def processEdges (ctx : Ctx) : List (Option Node) → PageState →
    Except CrawlError (PageState × Bool)
  | [], st => .ok (st, false)
  | e :: es, st =>
    match processEdge ctx st e with
    | .error err => .error err
    | .ok (st₁, fired) => if fired then .ok (st₁, true) else processEdges ctx es st₁

/-- Decision taken at the end of a successfully processed page (the code
after the edge loop): stop with `no_more_pages` when page-info reports no
next page; otherwise remember the previous cursor, advance to the page's end
cursor, and stop with `missing_cursor` when it is falsy or `cursor_stalled`
when it repeats the last-seen cursor; otherwise continue.  Each arm carries
the resulting (cursor, last cursor, previous cursor) triple. -/
inductive PageStep where
  | stopAt (r : StopReason) (cursor lastCursor prevCursor : Option String)
  | nextWith (cursor lastCursor prevCursor : Option String)
deriving DecidableEq

def pageAdvance (pi : PageInfo) (cursor lastCursor prevCursor : Option String) : PageStep :=
  if !pi.hasNextPage then .stopAt .no_more_pages cursor lastCursor prevCursor
  else
    let prevC := cursor
    let curC := pi.endCursor
    if !pyTruthy curC then .stopAt .missing_cursor curC lastCursor prevC
    else if curC = lastCursor then .stopAt .cursor_stalled curC lastCursor prevC
    else .nextWith curC curC prevC

/-- Backtrack guard on total page failure: a previous cursor exists (truthy),
differs from the current one, and backtracking is unused since the last
successful page. -/
def canBacktrack (st : LoopState) : Bool :=
  pyTruthy st.prevCursor && decide (st.prevCursor ≠ st.cursor) && !st.backtrackUsed

/-- Rewind the cursor to the previous value and mark backtracking used. -/
def rewind (st : LoopState) : LoopState :=
  { st with cursor := st.prevCursor, backtrackUsed := true }

/-- Result of the pagination loop: final state, stop reason, checkpoint
trace, and the unconsumed parts of both fetch scripts. -/
structure LoopOutcome where
  state : LoopState
  stopReason : StopReason
  trace : List FsEvent
  rscript : List (Option ReplyPage)
  script : List (Option Page)

/-- Terminal state when page fetches fail without consuming the script
(endpoint unconfigured, or script exhausted): one backtrack retry may fire,
whose refetch fails again, ending in `no_payload`. -/
def noPayloadStop (st : LoopState) (script : List (Option Page))
    (rscript : List (Option ReplyPage)) : LoopOutcome :=
  { state := if canBacktrack st then rewind st else st, stopReason := .no_payload,
    trace := [], rscript := rscript, script := script }

/-- The `while True` pagination loop of `crawl_post_comments`, driven by a
script of page-fetch outcomes (each element the result of one page fetch
after its per-page retries; `none` = total page failure).  The comments
endpoint gates run per iteration exactly as `fetch_comments_page` and
`build_request` perform them. -/
def crawlLoop (ctx : Ctx) : List (Option Page) → List (Option ReplyPage) → LoopState →
    Except CrawlError LoopOutcome
  | [], rscript, st =>
    match endpointConfigured ctx.commentsEndpoint with
    | none => .ok (noPayloadStop st [] rscript)
    | some ep =>
      match buildRequestUrlCheck ep with
      | .error e => .error e
      | .ok _ => .ok (noPayloadStop st [] rscript)
  | none :: rest, rscript, st =>
    match endpointConfigured ctx.commentsEndpoint with
    | none => .ok (noPayloadStop st (none :: rest) rscript)
    | some ep =>
      match buildRequestUrlCheck ep with
      | .error e => .error e
      | .ok _ =>
        if canBacktrack st then crawlLoop ctx rest rscript (rewind st)
        else .ok { state := st, stopReason := .no_payload, trace := [],
                   rscript := rscript, script := rest }
  | some page :: rest, rscript, st =>
    match endpointConfigured ctx.commentsEndpoint with
    | none => .ok (noPayloadStop st (some page :: rest) rscript)
    | some ep =>
      match buildRequestUrlCheck ep with
      | .error e => .error e
      | .ok _ =>
        let st₀ : LoopState :=
          { st with backtrackUsed := false, pages := st.pages + 1,
                    totalCount := st.totalCount.orElse (fun _ => page.count) }
        match processEdges ctx page.edges ⟨st₀.comments, st₀.seen, rscript⟩ with
        | .error e => .error e
        | .ok (pst, fired) =>
          let st₁ := { st₀ with comments := pst.comments, seen := pst.seen }
          if fired then
            .ok { state := st₁, stopReason := .max_reached, trace := [],
                  rscript := pst.rscript, script := rest }
          else
            match pageAdvance page.pageInfo st.cursor st.lastCursor st.prevCursor with
            | .stopAt r c l p =>
              .ok { state := { st₁ with cursor := c, lastCursor := l, prevCursor := p },
                    stopReason := r, trace := [], rscript := pst.rscript, script := rest }
            | .nextWith c l p =>
              let st₂ := { st₁ with cursor := c, lastCursor := l, prevCursor := p }
              match crawlLoop ctx rest pst.rscript st₂ with
              | .error e => .error e
              | .ok out =>
                .ok { out with
                      trace := FsEvent.saveResume (mkResumeState ctx st₂ none false) :: out.trace }

/-- The crawl is marked complete exactly for `no_more_pages`. -/
def crawlComplete (reason : Option StopReason) : Bool :=
  decide (reason = some StopReason.no_more_pages)

/-- Finalization after the loop: build and write the result, then delete the
checkpoint when complete, otherwise write one last non-complete checkpoint. -/
def finalizeCrawl (ctx : Ctx) (st : LoopState) (reason : Option StopReason) :
    CrawlResult × List FsEvent :=
  let result : CrawlResult :=
    { post := ctx.postInfo, commentCount := st.comments.length,
      expectedCommentCount := st.totalCount, fetchedAt := ctx.now,
      comments := st.comments, pages := st.pages, stopReason := reason }
  let finalEvents :=
    if crawlComplete reason then [FsEvent.clearResume]
    else [FsEvent.saveResume (mkResumeState ctx st reason false)]
  (result, FsEvent.saveOutput result :: finalEvents)

/-- Content of a checkpoint file: a parseable checkpoint, or bytes that make
`json.loads` raise. -/
inductive FileContent where
  | valid (s : ResumeState)
  | corrupt

/-- The checkpoint directory, as a map from path to file content. -/
def Fs : Type := String → Option FileContent

/-- Embedding of `resume_path`: the checkpoint path for a shortcode. -/
def resume_path (shortcode : String) : String :=
  shortcode ++ "_resume.json"

/-- Embedding of `load_resume_state`: absent file or a parse failure both
yield `none` (the exception is caught), never an error. -/
def load_resume_state (fs : Fs) (shortcode : String) : Option ResumeState :=
  match fs (resume_path shortcode) with
  | none => none
  | some .corrupt => none
  | some (.valid s) => some s

/-- Embedding of `save_resume_state`: serialize the checkpoint dict (with a
derived `comment_count` and a fresh `updated_at`) over the resume path. -/
def save_resume_state (fs : Fs) (shortcode : String) (post : PostInfo)
    (comments : List Comment) (seenIds : Finset (Option String))
    (cursor lastCursor : Option String) (page : Nat) (expectedCount : Option Int)
    (stopReason : Option StopReason) (complete : Bool) (now : String) : Fs :=
  fun p =>
    if p = resume_path shortcode then
      some (.valid
        { post := post, commentCount := comments.length, comments := comments,
          seenCommentIds := seenIds, cursor := cursor, lastCursor := lastCursor,
          pages := page, expectedCommentCount := expectedCount,
          stopReason := stopReason, complete := complete, updatedAt := now })
    else fs p

/-- Embedding of `clear_resume_state`: unlink the resume path if present. -/
def clear_resume_state (fs : Fs) (shortcode : String) : Fs :=
  fun p => if p = resume_path shortcode then none else fs p

/-- Static configuration consumed by `crawl_post_comments`. -/
structure Config where
  commentsEndpoint : Option Endpoint
  repliesEndpoint : Option Endpoint
  postByShortcode : Option Endpoint
  fetchReplies : Bool
  maxComments : Nat
  resumeByDefault : Bool
  now : String

/-- Embedding of `resolve_media_id` with the HTTP exchange abstracted into
an oracle: `oracle = none` means the request failed, `some p` carries the
media/owner ids navigated out of the payload.  An unconfigured endpoint
falls back to the shortcode decode, then the HTML-scrape oracle; a
configured endpoint with a falsy URL raises from `build_request`. -/
def resolve_media_id (cfg : Config) (shortcode : String)
    (oracle : Option PostInfo) (htmlOracle : Option String) :
    Except CrawlError (Option String × PostInfo) :=
  match endpointConfigured cfg.postByShortcode with
  | none =>
    let m := pyOrS (shortcode_to_media_id shortcode) htmlOracle
    .ok (m, { ownerId := none, mediaId := m })
  | some ep =>
    match buildRequestUrlCheck ep with
    | .error e => .error e
    | .ok _ =>
      match oracle with
      | none => .ok (none, { ownerId := none, mediaId := none })
      | some p =>
        let m := pyOrS p.mediaId (shortcode_to_media_id shortcode)
        .ok (m, { p with mediaId := m })

/-- Everything `crawl_post_comments` produces: the written result, the
ordered file-system trace, and the loop's final data. -/
structure CrawlRun where
  result : CrawlResult
  trace : List FsEvent
  stopReason : StopReason
  finalState : LoopState
  script : List (Option Page)
  rscript : List (Option ReplyPage)

/-- The resume guard at the top of `crawl_post_comments`: resume only when
requested, a checkpoint was loaded, and it is not marked complete (a
stale-complete checkpoint starts a fresh crawl). -/
def effectiveResume (doResume : Bool) (loaded : Option ResumeState) : Option ResumeState :=
  if doResume then
    match loaded with
    | some s => if s.complete then none else some s
    | none => none
  else none

/-- Fresh-start loop state. -/
def freshState : LoopState :=
  { comments := [], seen := ∅, cursor := none, lastCursor := none, prevCursor := none,
    backtrackUsed := false, pages := 0, totalCount := none }

/-- Loop state restored from a checkpoint (locals `prev_cursor` and
`backtrack_used` are freshly initialized). -/
def resumedState (s : ResumeState) : LoopState :=
  { comments := s.comments, seen := s.seenCommentIds, cursor := s.cursor,
    lastCursor := s.lastCursor, prevCursor := none, backtrackUsed := false,
    pages := s.pages, totalCount := s.expectedCommentCount }

/-- Run the loop and finalize, assembling the full trace. -/
def runLoop (ctx : Ctx) (st0 : LoopState) (script : List (Option Page))
    (rscript : List (Option ReplyPage)) : Except CrawlError CrawlRun :=
  match crawlLoop ctx script rscript st0 with
  | .error e => .error e
  | .ok out =>
    let fin := finalizeCrawl ctx out.state (some out.stopReason)
    .ok { result := fin.1, trace := out.trace ++ fin.2, stopReason := out.stopReason,
          finalState := out.state, script := out.script, rscript := out.rscript }

/-- Embedding of `crawl_post_comments`.  `resumeLoaded` is the checkpoint
`load_resume_state` would return; a checkpoint marked complete is discarded
and the crawl starts fresh.  Raises `invalidPostUrl` when no shortcode can
be extracted, before anything else runs. -/
def crawl_post_comments (cfg : Config) (postUrl : String)
    (maxOverride : Option Nat) (resume : Option Bool)
    (resumeLoaded : Option ResumeState)
    (resolveOracle : Option PostInfo) (htmlOracle : Option String)
    (script : List (Option Page)) (rscript : List (Option ReplyPage)) :
    Except CrawlError CrawlRun :=
  match extract_shortcode postUrl with
  | none => .error .invalidPostUrl
  | some shortcode =>
    let maxComments := maxOverride.getD cfg.maxComments
    match effectiveResume (resume.getD cfg.resumeByDefault) resumeLoaded with
    | some s =>
      let ctx : Ctx :=
        { commentsEndpoint := cfg.commentsEndpoint, repliesEndpoint := cfg.repliesEndpoint,
          fetchReplies := cfg.fetchReplies, maxComments := maxComments,
          postInfo := s.post, now := cfg.now }
      runLoop ctx (resumedState s) script rscript
    | none =>
      match resolve_media_id cfg shortcode resolveOracle htmlOracle with
      | .error e => .error e
      | .ok (m, pinfo) =>
        let ctx : Ctx :=
          { commentsEndpoint := cfg.commentsEndpoint, repliesEndpoint := cfg.repliesEndpoint,
            fetchReplies := cfg.fetchReplies, maxComments := maxComments,
            postInfo := { pinfo with mediaId := m }, now := cfg.now }
        runLoop ctx freshState script rscript

mutual

/-- All ids appearing in a comment subtree, root first. -/
def commentIds : Comment → List (Option String)
  | .mk i _ _ _ _ rs _ => i :: treeIds rs

/-- All ids appearing in a list of comment subtrees. -/
def treeIds : List Comment → List (Option String)
  | [] => []
  | c :: cs => commentIds c ++ treeIds cs

end

/-- Dedup invariant relating a comment forest to a seen-id set: every id in
the forest is in the set, and the flattened id list has no duplicates. -/
def DedupInv (comments : List Comment) (seen : Finset (Option String)) : Prop :=
  (treeIds comments).Nodup ∧ ∀ i ∈ treeIds comments, i ∈ seen

/-- Stop reason carried by a page-advance decision (`none` = continue). -/
def stepReason : PageStep → Option StopReason
  | .stopAt r _ _ _ => some r
  | .nextWith _ _ _ => none

/-- Invariant of the in-flight comment being assembled: relative to the seen
set `seen₀` frozen before its id was inserted, the current seen set has only
grown, the comment's id together with its reply ids are pairwise distinct,
all are in the current seen set, and none were in the frozen one. -/
structure RepInv (seen₀ seen : Finset (Option String)) (pid : Option String)
    (acc : List Comment) : Prop where
  mono : seen₀ ⊆ seen
  nodup : (pid :: treeIds acc).Nodup
  inSeen : ∀ i ∈ pid :: treeIds acc, i ∈ seen
  fresh : ∀ i ∈ pid :: treeIds acc, i ∉ seen₀
  truthy : ∀ c ∈ acc, pyTruthy c.id = true

end IGC

namespace IGC

theorem crawlLoop_trace_saves (ctx : Ctx) :
    ∀ (script : List (Option Page)) (rscript : List (Option ReplyPage)) (st : LoopState)
      (out : LoopOutcome), crawlLoop ctx script rscript st = .ok out →
      ∀ ev ∈ out.trace, ∃ s, ev = .saveResume s ∧ s.complete = false ∧ s.stopReason = none := by
  intro script
  induction script with
  | nil =>
    intro rscript st out h ev hev
    unfold crawlLoop at h
    rcases hc : endpointConfigured ctx.commentsEndpoint with _ | ep <;>
      rw [hc] at h <;> (try dsimp only at h)
    · cases h; simp [noPayloadStop] at hev
    · rcases hu : buildRequestUrlCheck ep with e | u <;>
        rw [hu] at h <;> (try dsimp only at h)
      · cases h
      · cases h; simp [noPayloadStop] at hev
  | cons p rest ih =>
    intro rscript st out h ev hev
    cases p with
    | none =>
      unfold crawlLoop at h
      rcases hc : endpointConfigured ctx.commentsEndpoint with _ | ep <;>
        rw [hc] at h <;> (try dsimp only at h)
      · cases h; simp [noPayloadStop] at hev
      · rcases hu : buildRequestUrlCheck ep with e | u <;>
          rw [hu] at h <;> (try dsimp only at h)
        · cases h
        · by_cases hb : canBacktrack st = true
          · rw [if_pos hb] at h
            exact ih rscript (rewind st) out h ev hev
          · rw [if_neg hb] at h
            cases h; simp at hev
    | some page =>
      unfold crawlLoop at h
      rcases hc : endpointConfigured ctx.commentsEndpoint with _ | ep <;>
        rw [hc] at h <;> (try dsimp only at h)
      · cases h; simp [noPayloadStop] at hev
      · rcases hu : buildRequestUrlCheck ep with e | u <;>
          rw [hu] at h <;> (try dsimp only at h)
        · cases h
        · rcases hp : processEdges ctx page.edges ⟨st.comments, st.seen, rscript⟩
            with e | pr <;> rw [hp] at h <;> (try dsimp only at h)
          · cases h
          · rcases pr with ⟨pst, fired⟩
            (try dsimp only at h)
            by_cases hf : fired = true
            · rw [if_pos hf] at h
              cases h; simp at hev
            · rw [if_neg hf] at h
              cases ha : pageAdvance page.pageInfo st.cursor st.lastCursor st.prevCursor with
              | stopAt r c l pv =>
                rw [ha] at h
                dsimp only at h
                cases h
                simp at hev
              | nextWith c l pv =>
                rw [ha] at h
                dsimp only at h
                split at h
                · cases h
                · next out₂ hrec =>
                  cases h
                  simp only [List.mem_cons] at hev
                  rcases hev with hev | hev
                  · exact ⟨_, hev, rfl, rfl⟩
                  · exact ih _ _ out₂ hrec ev hev

/-- C2: at the end of each successfully fetched page the loop stops with
`no_more_pages` exactly when page-info reports no next page (and only this
reason marks the crawl complete); otherwise it stops with `missing_cursor`
exactly when the next cursor is falsy, with `cursor_stalled` exactly when it
equals the last-seen cursor, and continues otherwise; and the loop's stop
reason at such a page is exactly the page-advance decision's reason. -/
theorem pageAdvance_stop_characterization (pi : PageInfo)
    (cursor lastCursor prevCursor : Option String) :
    (stepReason (pageAdvance pi cursor lastCursor prevCursor) = some .no_more_pages ↔
       pi.hasNextPage = false)
  ∧ (stepReason (pageAdvance pi cursor lastCursor prevCursor) = some .missing_cursor ↔
       pi.hasNextPage = true ∧ pyTruthy pi.endCursor = false)
  ∧ (stepReason (pageAdvance pi cursor lastCursor prevCursor) = some .cursor_stalled ↔
       pi.hasNextPage = true ∧ pyTruthy pi.endCursor = true ∧ pi.endCursor = lastCursor)
  ∧ (stepReason (pageAdvance pi cursor lastCursor prevCursor) = none ↔
       pi.hasNextPage = true ∧ pyTruthy pi.endCursor = true ∧ pi.endCursor ≠ lastCursor)
  ∧ (∀ r : Option StopReason, crawlComplete r = true ↔ r = some .no_more_pages)
  ∧ (∀ (ctx : Ctx) (page : Page) (rest : List (Option Page)) rscript st ep pst r c l pv,
       endpointConfigured ctx.commentsEndpoint = some ep → pyTruthy ep.url = true →
       processEdges ctx page.edges ⟨st.comments, st.seen, rscript⟩ = .ok (pst, false) →
       pageAdvance page.pageInfo st.cursor st.lastCursor st.prevCursor = .stopAt r c l pv →
       ∃ out, crawlLoop ctx (some page :: rest) rscript st = .ok out ∧
         out.stopReason = r ∧ out.script = rest) := by
  refine ⟨?_, ?_, ?_, ?_, ?_, ?_⟩
  · cases h : pi.hasNextPage <;>
      simp [pageAdvance, stepReason, h] <;>
      by_cases ht : pyTruthy pi.endCursor <;>
      simp [ht] <;>
      by_cases he : pi.endCursor = lastCursor <;>
      simp [he, stepReason]
  · cases h : pi.hasNextPage <;>
      simp [pageAdvance, stepReason, h] <;>
      by_cases ht : pyTruthy pi.endCursor <;>
      simp [ht, stepReason] <;>
      by_cases he : pi.endCursor = lastCursor <;>
      simp [he, stepReason]
  · cases h : pi.hasNextPage <;>
      simp [pageAdvance, stepReason, h] <;>
      by_cases ht : pyTruthy pi.endCursor <;>
      simp [ht, stepReason] <;>
      by_cases he : pi.endCursor = lastCursor <;>
      simp [he, stepReason]
  · cases h : pi.hasNextPage <;>
      simp [pageAdvance, stepReason, h] <;>
      by_cases ht : pyTruthy pi.endCursor <;>
      simp [ht, stepReason] <;>
      by_cases he : pi.endCursor = lastCursor <;>
      simp [he, stepReason]
  · intro r
    cases r with
    | none => simp [crawlComplete]
    | some s => cases s <;> simp [crawlComplete]
  · intro ctx page rest rscript st ep pst r c l pv hc hu hp ha
    have hok : buildRequestUrlCheck ep = .ok () := by
      unfold buildRequestUrlCheck; rw [hu]; rfl
    have hstep : crawlLoop ctx (some page :: rest) rscript st =
        .ok { state :=
                { comments := pst.comments, seen := pst.seen, cursor := c,
                  lastCursor := l, prevCursor := pv, backtrackUsed := false,
                  pages := st.pages + 1,
                  totalCount := st.totalCount.orElse (fun _ => page.count) },
              stopReason := r, trace := [], rscript := pst.rscript, script := rest } := by
      unfold crawlLoop
      simp only [hc, hok, hp, ha]
      rfl
    exact ⟨_, hstep, rfl, rfl⟩

/-- C2 witness: the decision on a concrete final page, and the loop stopping
with it on a concrete crawl. -/
theorem pageAdvance_stop_characterization_witness :
    (stepReason (pageAdvance { hasNextPage := false, endCursor := none }
      (some "c") none none) = some .no_more_pages)
  ∧ (∃ out, crawlLoop
        { commentsEndpoint := some { url := some "u", docId := some "1" },
          repliesEndpoint := none, fetchReplies := false, maxComments := 0,
          postInfo := { ownerId := none, mediaId := none }, now := "T" }
        [some { edges := [], pageInfo := { hasNextPage := false, endCursor := none },
                count := none }] [] freshState = .ok out ∧
      out.stopReason = .no_more_pages ∧ out.script = []) := by
  have h := pageAdvance_stop_characterization
    { hasNextPage := false, endCursor := none } (some "c") none none
  refine ⟨h.1.mpr rfl, ?_⟩
  exact (pageAdvance_stop_characterization
      { hasNextPage := false, endCursor := none } none none none).2.2.2.2.2
    { commentsEndpoint := some { url := some "u", docId := some "1" },
      repliesEndpoint := none, fetchReplies := false, maxComments := 0,
      postInfo := { ownerId := none, mediaId := none }, now := "T" }
    { edges := [], pageInfo := { hasNextPage := false, endCursor := none }, count := none }
    [] [] freshState { url := some "u", docId := some "1" }
    { comments := [], seen := ∅, rscript := [] }
    .no_more_pages none none none rfl rfl rfl rfl

/-- C3: on every completed crawl the result is written; the checkpoint is
deleted exactly when the stop reason is `no_more_pages`, and for every other
stop reason (including `interrupted`, covered by the finalization clauses
over all reasons) one last non-complete checkpoint is written instead. -/
theorem finalize_checkpoint_policy (cfg : Config) (postUrl : String)
    (maxOverride : Option Nat) (resume : Option Bool) (resumeLoaded : Option ResumeState)
    (resolveOracle : Option PostInfo) (htmlOracle : Option String)
    (script : List (Option Page)) (rscript : List (Option ReplyPage)) (run : CrawlRun) :
    crawl_post_comments cfg postUrl maxOverride resume resumeLoaded resolveOracle
      htmlOracle script rscript = .ok run →
    (∃ pre, (∀ ev ∈ pre, ∃ s, ev = FsEvent.saveResume s ∧ s.complete = false) ∧
      ((run.result.stopReason = some .no_more_pages ∧
          run.trace = pre ++ [FsEvent.saveOutput run.result, FsEvent.clearResume]) ∨
       (run.result.stopReason ≠ some .no_more_pages ∧
          ∃ s, s.complete = false ∧ s.stopReason = run.result.stopReason ∧
            run.trace = pre ++ [FsEvent.saveOutput run.result, FsEvent.saveResume s])))
  ∧ (∀ (ctx : Ctx) (st : LoopState) (r : Option StopReason), r ≠ some .no_more_pages →
       (finalizeCrawl ctx st r).2 =
         [FsEvent.saveOutput (finalizeCrawl ctx st r).1,
          FsEvent.saveResume (mkResumeState ctx st r false)])
  ∧ (∀ (ctx : Ctx) (st : LoopState),
       (finalizeCrawl ctx st (some .no_more_pages)).2 =
         [FsEvent.saveOutput (finalizeCrawl ctx st (some .no_more_pages)).1,
          FsEvent.clearResume]) := by
  intro h
  refine ⟨?_, ?_, ?_⟩
  · have hrun : ∃ ctx st0, runLoop ctx st0 script rscript = .ok run := by
      unfold crawl_post_comments at h
      rcases hsc : extract_shortcode postUrl with _ | sc <;>
        rw [hsc] at h <;> (try dsimp only at h)
      · cases h
      · rcases hres : effectiveResume (resume.getD cfg.resumeByDefault) resumeLoaded
          with _ | s <;> rw [hres] at h <;> (try dsimp only at h)
        · rcases hr : resolve_media_id cfg sc resolveOracle htmlOracle with e | mp <;>
            rw [hr] at h <;> (try dsimp only at h)
          · cases h
          · rcases mp with ⟨m, pinfo⟩
            (try dsimp only at h)
            exact ⟨_, _, h⟩
        · exact ⟨_, _, h⟩
    rcases hrun with ⟨ctx, st0, hrl⟩
    unfold runLoop at hrl
    rcases hl : crawlLoop ctx script rscript st0 with e | out <;> rw [hl] at hrl
    · cases hrl
    · cases hrl
      refine ⟨out.trace, ?_, ?_⟩
      · intro ev hev
        rcases crawlLoop_trace_saves ctx script rscript st0 out hl ev hev with ⟨s, hs, hsc, _⟩
        exact ⟨s, hs, hsc⟩
      · by_cases hr : out.stopReason = StopReason.no_more_pages
        · left
          constructor
          · simp [finalizeCrawl, hr]
          · simp [finalizeCrawl, hr, crawlComplete]
        · right
          refine ⟨?_, mkResumeState ctx out.state (some out.stopReason) false, rfl, ?_, ?_⟩
          · simp [finalizeCrawl]
            intro hc; exact hr hc
          · simp [finalizeCrawl, mkResumeState]
          · have : crawlComplete (some out.stopReason) = false := by
              simp [crawlComplete]; intro hc; exact hr hc
            simp [finalizeCrawl, this]
  · intro ctx st r hr
    have : crawlComplete r = false := by
      simp [crawlComplete]
      intro hc; exact hr (by rw [hc])
    simp [finalizeCrawl, this]
  · intro ctx st
    simp [finalizeCrawl, crawlComplete]

/-- C3 witness: a concrete completed crawl (one page, no next page). -/
theorem finalize_checkpoint_policy_witness :
    ∃ run, crawl_post_comments
      { commentsEndpoint := some { url := some "u", docId := some "1" },
        repliesEndpoint := none, postByShortcode := none, fetchReplies := true,
        maxComments := 0, resumeByDefault := false, now := "T" }
      "https://www.instagram.com/p/ABC/" none none none none none
      [some { edges := [], pageInfo := { hasNextPage := false, endCursor := none },
              count := none }] [] = .ok run ∧
    (∃ pre, (∀ ev ∈ pre, ∃ s, ev = FsEvent.saveResume s ∧ s.complete = false) ∧
      ((run.result.stopReason = some .no_more_pages ∧
          run.trace = pre ++ [FsEvent.saveOutput run.result, FsEvent.clearResume]) ∨
       (run.result.stopReason ≠ some .no_more_pages ∧
          ∃ s, s.complete = false ∧ s.stopReason = run.result.stopReason ∧
            run.trace = pre ++ [FsEvent.saveOutput run.result, FsEvent.saveResume s]))) := by
  have h := finalize_checkpoint_policy
    { commentsEndpoint := some { url := some "u", docId := some "1" },
      repliesEndpoint := none, postByShortcode := none, fetchReplies := true,
      maxComments := 0, resumeByDefault := false, now := "T" }
    "https://www.instagram.com/p/ABC/" none none none none none
    [some { edges := [], pageInfo := { hasNextPage := false, endCursor := none },
            count := none }] [] _ rfl
  exact ⟨_, rfl, h.1⟩

theorem renderString_noPh (vars : List (String × Option String)) (v r : String) :
    renderString vars v = some r → hasPlaceholder r = false := by
  intro h
  unfold renderString at h
  rcases hs : substVars vars v with _ | r₀ <;> rw [hs] at h <;> (try dsimp only at h)
  · cases h
  · by_cases hp : hasPlaceholder r₀ = true
    · rw [if_pos hp] at h; cases h
    · rw [if_neg hp] at h
      cases h
      exact Bool.not_eq_true _ |>.mp hp

mutual

theorem render_noPh (vars : List (String × Option String)) :
    ∀ (v rv : JVal), render_template vars v = some rv → noPh rv = true
  | .s v, rv, h => by
    unfold render_template at h
    rcases hr : renderString vars v with _ | r <;> rw [hr] at h
    · cases h
    · cases h
      simp [noPh, renderString_noPh vars v r hr]
  | .dict kvs, rv, h => by
    cases h
    exact renderDict_noPh vars kvs
  | .arr items, rv, h => by
    cases h
    exact renderArr_noPh vars items
  | .num n, rv, h => by
    cases h
    rfl

theorem renderDict_noPh (vars : List (String × Option String)) :
    ∀ (kvs : List (String × JVal)), noPh (.dict (renderDict vars kvs)) = true
  | [] => rfl
  | (k, v) :: rest => by
    have hrest := renderDict_noPh vars rest
    cases hr : render_template vars v with
    | none => simpa [renderDict, hr] using hrest
    | some rv =>
      have hv := render_noPh vars v rv hr
      simp [renderDict, hr, noPh, noPhDict] at hrest ⊢
      exact ⟨hv, hrest⟩

theorem renderArr_noPh (vars : List (String × Option String)) :
    ∀ (items : List JVal), noPh (.arr (renderArr vars items)) = true
  | [] => rfl
  | v :: rest => by
    have hrest := renderArr_noPh vars rest
    cases hr : render_template vars v with
    | none => simpa [renderArr, hr] using hrest
    | some rv =>
      have hv := render_noPh vars v rv hr
      simp [renderArr, hr, noPh, noPhArr] at hrest ⊢
      exact ⟨hv, hrest⟩

end

/-- C8: template rendering is dropping-safe.  Any string whose substituted
form still matches the placeholder pattern renders to `none` and is omitted
from mappings and sequences, so every rendered value satisfies the
no-placeholder predicate on all of its string leaves. -/
theorem render_template_dropping_safe (vars : List (String × Option String)) :
    (∀ (v rv : JVal), render_template vars v = some rv → noPh rv = true)
  ∧ (∀ (s r : String), substVars vars s = some r → hasPlaceholder r = true →
       render_template vars (.s s) = none)
  ∧ (∀ (k : String) (v : JVal) (kvs : List (String × JVal)),
       render_template vars v = none →
       renderDict vars ((k, v) :: kvs) = renderDict vars kvs)
  ∧ (∀ (v : JVal) (items : List JVal), render_template vars v = none →
       renderArr vars (v :: items) = renderArr vars items) := by
  refine ⟨render_noPh vars, ?_, ?_, ?_⟩
  · intro s r hs hp
    unfold render_template renderString
    rw [hs]
    dsimp only
    rw [if_pos hp]
    rfl
  · intro k v kvs hv
    simp only [renderDict, hv]
  · intro v items hv
    simp only [renderArr, hv]

/-- C8 witness: a mapping with one unresolved and one resolved leaf renders
to the resolved entry only, and the output is placeholder-free. -/
theorem render_template_dropping_safe_witness :
    render_template [("q", some "1")]
      (.dict [("a", .s "\x7bmissing\x7d"), ("b", .s "v=\x7bq\x7d")]) =
      some (.dict [("b", .s "v=1")])
  ∧ noPh (.dict [("b", .s "v=1")]) = true := by
  have h1 : render_template [("q", some "1")]
      (.dict [("a", .s "\x7bmissing\x7d"), ("b", .s "v=\x7bq\x7d")]) =
      some (.dict [("b", .s "v=1")]) := by rfl
  exact ⟨h1, (render_template_dropping_safe [("q", some "1")]).1 _ _ h1⟩

theorem retriableB_resp (s x : Nat) : retriableB (.resp s x) = retryableStatus s := rfl

theorem requestAttempts_spec (N d : Nat) (f : Nat → AttemptOutcome) :
    ∀ (rem attempt : Nat), attempt + rem = N + 1 →
      ∀ (p : Nat) (L : List Nat),
        requestAttempts N d f attempt rem = (some p, L) ↔
          ∃ i, attempt ≤ i ∧ i ≤ N ∧ f i = .resp 200 p ∧
            (∀ j, attempt ≤ j → j < i → retriableB (f j) = true) ∧
            L = (List.range' attempt (i - attempt)).map (sleepFor d f) := by
  intro rem
  induction rem with
  | zero =>
    intro attempt hsum p L
    constructor
    · intro h
      simp [requestAttempts] at h
    · rintro ⟨i, hai, hiN, _⟩
      omega
  | succ rem ih =>
    intro attempt hsum p L
    have hstep : requestAttempts N d f attempt (rem + 1) =
        match f attempt with
        | .exn =>
          let tail := requestAttempts N d f (attempt + 1) rem
          if attempt < N then (tail.1, d :: tail.2) else tail
        | .resp status payload =>
          if status = 200 then (some payload, [])
          else if retryableStatus status then
            if attempt < N then
              let tail := requestAttempts N d f (attempt + 1) rem
              (tail.1, d * attempt :: tail.2)
            else (none, [])
          else (none, []) := rfl
    rcases hfa : f attempt with _ | ⟨status, payload⟩
    · -- transport exception
      rw [hstep, hfa]
      (try dsimp only)
      by_cases hlt : attempt < N
      · rw [if_pos hlt]
        (try dsimp only)
        have htail := ih (attempt + 1) (by omega) p
          (requestAttempts N d f (attempt + 1) rem).2
        constructor
        · intro h
          have h1 : (requestAttempts N d f (attempt + 1) rem).1 = some p := by
            have := congrArg Prod.fst h; simpa using this
          have h2 : L = d :: (requestAttempts N d f (attempt + 1) rem).2 := by
            have := congrArg Prod.snd h; simp at this; exact this.symm
          have hpair : requestAttempts N d f (attempt + 1) rem =
              (some p, (requestAttempts N d f (attempt + 1) rem).2) := by
            rw [← h1]
          rcases htail.mp hpair with ⟨i, hi1, hi2, hfi, hall, hL⟩
          refine ⟨i, by omega, hi2, hfi, ?_, ?_⟩
          · intro j hj1 hj2
            rcases Nat.eq_or_lt_of_le hj1 with hje | hjl
            · rw [← hje, hfa]; rfl
            · exact hall j hjl hj2
          · have hrange : List.range' attempt (i - attempt) =
                attempt :: List.range' (attempt + 1) (i - (attempt + 1)) := by
              have : i - attempt = (i - (attempt + 1)) + 1 := by omega
              rw [this, List.range'_succ]
            rw [hrange, List.map_cons, ← hL, h2]
            have : sleepFor d f attempt = d := by simp [sleepFor, hfa]
            rw [this]
        · rintro ⟨i, hi1, hi2, hfi, hall, hL⟩
          have hine : i ≠ attempt := by
            intro he; rw [he, hfa] at hfi; cases hfi
          have hi1' : attempt + 1 ≤ i := by omega
          have hpair : requestAttempts N d f (attempt + 1) rem =
              (some p, (List.range' (attempt + 1) (i - (attempt + 1))).map (sleepFor d f)) := by
            refine (ih (attempt + 1) (by omega) p _).mpr ⟨i, hi1', hi2, hfi, ?_, rfl⟩
            intro j hj1 hj2
            exact hall j (by omega) hj2
          rw [hpair]
          have hrange : List.range' attempt (i - attempt) =
              attempt :: List.range' (attempt + 1) (i - (attempt + 1)) := by
            have : i - attempt = (i - (attempt + 1)) + 1 := by omega
            rw [this, List.range'_succ]
          rw [hL, hrange, List.map_cons]
          have : sleepFor d f attempt = d := by simp [sleepFor, hfa]
          rw [this]
      · rw [if_neg hlt]
        have hrem : rem = 0 := by omega
        have hatt : attempt = N := by omega
        subst hrem
        constructor
        · intro h
          simp [requestAttempts] at h
        · rintro ⟨i, hi1, hi2, hfi, _, _⟩
          have : i = attempt := by omega
          rw [this, hfa] at hfi
          cases hfi
    · -- HTTP response
      rw [hstep, hfa]
      (try dsimp only)
      by_cases h200 : status = 200
      · rw [if_pos h200]
        constructor
        · intro h
          have h1 : payload = p := by
            have := congrArg Prod.fst h; simpa using this
          have h2 : L = [] := by
            have := congrArg Prod.snd h; simpa using this.symm
          refine ⟨attempt, le_refl _, by omega, ?_, ?_, ?_⟩
          · rw [hfa, h200, h1]
          · intro j hj1 hj2; omega
          · simp [h2]
        · rintro ⟨i, hi1, hi2, hfi, hall, hL⟩
          rcases Nat.eq_or_lt_of_le hi1 with hie | hil
          · rw [← hie, hfa] at hfi
            cases hfi
            simp [hL, hie]
          · have := hall attempt (le_refl _) hil
            rw [hfa, retriableB_resp, h200] at this
            simp [retryableStatus] at this
      · rw [if_neg h200]
        by_cases hretry : retryableStatus status = true
        · rw [if_pos hretry]
          by_cases hlt : attempt < N
          · rw [if_pos hlt]
            (try dsimp only)
            have htail := ih (attempt + 1) (by omega) p
              (requestAttempts N d f (attempt + 1) rem).2
            constructor
            · intro h
              have h1 : (requestAttempts N d f (attempt + 1) rem).1 = some p := by
                have := congrArg Prod.fst h; simpa using this
              have h2 : L = d * attempt :: (requestAttempts N d f (attempt + 1) rem).2 := by
                have := congrArg Prod.snd h; simp at this; exact this.symm
              have hpair : requestAttempts N d f (attempt + 1) rem =
                  (some p, (requestAttempts N d f (attempt + 1) rem).2) := by
                rw [← h1]
              rcases htail.mp hpair with ⟨i, hi1, hi2, hfi, hall, hL⟩
              refine ⟨i, by omega, hi2, hfi, ?_, ?_⟩
              · intro j hj1 hj2
                rcases Nat.eq_or_lt_of_le hj1 with hje | hjl
                · rw [← hje, hfa, retriableB_resp]; exact hretry
                · exact hall j hjl hj2
              · have hrange : List.range' attempt (i - attempt) =
                    attempt :: List.range' (attempt + 1) (i - (attempt + 1)) := by
                  have : i - attempt = (i - (attempt + 1)) + 1 := by omega
                  rw [this, List.range'_succ]
                rw [hrange, List.map_cons, ← hL, h2]
                have : sleepFor d f attempt = d * attempt := by simp [sleepFor, hfa]
                rw [this]
            · rintro ⟨i, hi1, hi2, hfi, hall, hL⟩
              have hine : i ≠ attempt := by
                intro he
                rw [he, hfa] at hfi
                injection hfi with hs _
                exact h200 hs
              have hi1' : attempt + 1 ≤ i := by omega
              have hpair : requestAttempts N d f (attempt + 1) rem =
                  (some p, (List.range' (attempt + 1) (i - (attempt + 1))).map (sleepFor d f)) := by
                refine (ih (attempt + 1) (by omega) p _).mpr ⟨i, hi1', hi2, hfi, ?_, rfl⟩
                intro j hj1 hj2
                exact hall j (by omega) hj2
              rw [hpair]
              have hrange : List.range' attempt (i - attempt) =
                  attempt :: List.range' (attempt + 1) (i - (attempt + 1)) := by
                have : i - attempt = (i - (attempt + 1)) + 1 := by omega
                rw [this, List.range'_succ]
              rw [hL, hrange, List.map_cons]
              have : sleepFor d f attempt = d * attempt := by simp [sleepFor, hfa]
              rw [this]
          · rw [if_neg hlt]
            constructor
            · intro h; cases h
            · rintro ⟨i, hi1, hi2, hfi, _, _⟩
              have : i = attempt := by omega
              rw [this, hfa] at hfi
              injection hfi with hs _
              exact (h200 hs).elim
        · rw [if_neg hretry]
          constructor
          · intro h; cases h
          · rintro ⟨i, hi1, hi2, hfi, hall, hL⟩
            rcases Nat.eq_or_lt_of_le hi1 with hie | hil
            · rw [← hie, hfa] at hfi
              injection hfi with hs _
              exact (h200 hs).elim
            · have := hall attempt (le_refl _) hil
              rw [hfa, retriableB_resp] at this
              exact (hretry this).elim

/-- C6: `request_with_retry` returns a payload exactly when some attempt
`i ≤ N` returns HTTP 200 after only retriable outcomes (transport exceptions
slept through with the fixed delay, statuses in the retryable set with
`delay × attempt`), and returns `none` (never raising) exactly when no such
attempt exists — in particular any other non-200 status is terminal and
exhausting the attempts yields `none`. -/
theorem request_with_retry_spec (N d : Nat) (f : Nat → AttemptOutcome) :
    (∀ (p : Nat) (L : List Nat),
        request_with_retry N d f = (some p, L) ↔
          ∃ i, 1 ≤ i ∧ i ≤ N ∧ f i = .resp 200 p ∧
            (∀ j, 1 ≤ j → j < i → retriableB (f j) = true) ∧
            L = (List.range' 1 (i - 1)).map (sleepFor d f))
  ∧ ((request_with_retry N d f).1 = none ↔
        ¬ ∃ i p, 1 ≤ i ∧ i ≤ N ∧ f i = .resp 200 p ∧
            ∀ j, 1 ≤ j → j < i → retriableB (f j) = true) := by
  have hchar : ∀ (p : Nat) (L : List Nat),
      request_with_retry N d f = (some p, L) ↔
        ∃ i, 1 ≤ i ∧ i ≤ N ∧ f i = .resp 200 p ∧
          (∀ j, 1 ≤ j → j < i → retriableB (f j) = true) ∧
          L = (List.range' 1 (i - 1)).map (sleepFor d f) := by
    intro p L
    exact requestAttempts_spec N d f N 1 (by omega) p L
  refine ⟨hchar, ?_⟩
  constructor
  · intro hnone
    rintro ⟨i, p, hi1, hi2, hfi, hall⟩
    have : request_with_retry N d f =
        (some p, (List.range' 1 (i - 1)).map (sleepFor d f)) :=
      (hchar p _).mpr ⟨i, hi1, hi2, hfi, hall, rfl⟩
    rw [this] at hnone
    cases hnone
  · intro hnex
    rcases hres : (request_with_retry N d f).1 with _ | p
    · rfl
    · exfalso
      have hfull : request_with_retry N d f = (some p, (request_with_retry N d f).2) := by
        rw [← hres]
      rcases (hchar p _).mp hfull with ⟨i, hi1, hi2, hfi, hall, _⟩
      exact hnex ⟨i, p, hi1, hi2, hfi, hall⟩

/-- C6 witness: an exception, a 503, then a 200 — the payload is returned
after a fixed sleep and one linear-backoff sleep. -/
theorem request_with_retry_spec_witness :
    request_with_retry 3 5
      (fun i => if i = 1 then .exn else if i = 2 then .resp 503 0 else .resp 200 42) =
      (some 42, [5, 10]) := by
  refine ((request_with_retry_spec 3 5 _).1 42 [5, 10]).mpr ⟨3, ?_, ?_, ?_, ?_, ?_⟩
  · omega
  · omega
  · rfl
  · intro j hj1 hj2
    interval_cases j <;> rfl
  · rfl

/-- C7: saving a checkpoint and loading it back reproduces every field with
`updated_at` refreshed to the save time (the seen-id set round-tripping as
the same set); loading after a clear returns absent; loading a corrupt file
returns absent (the parse exception is swallowed). -/
theorem resume_round_trip (fs : Fs) (sc : String) (post : PostInfo)
    (comments : List Comment) (seenIds : Finset (Option String))
    (cursor lastCursor : Option String) (page : Nat) (expectedCount : Option Int)
    (stopReason : Option StopReason) (complete : Bool) (now : String) :
    (load_resume_state
        (save_resume_state fs sc post comments seenIds cursor lastCursor page
          expectedCount stopReason complete now) sc =
      some { post := post, commentCount := comments.length, comments := comments,
             seenCommentIds := seenIds, cursor := cursor, lastCursor := lastCursor,
             pages := page, expectedCommentCount := expectedCount,
             stopReason := stopReason, complete := complete, updatedAt := now })
  ∧ load_resume_state (clear_resume_state fs sc) sc = none
  ∧ (fs (resume_path sc) = some .corrupt → load_resume_state fs sc = none) := by
  refine ⟨?_, ?_, ?_⟩
  · simp [load_resume_state, save_resume_state]
  · simp [load_resume_state, clear_resume_state]
  · intro h
    simp [load_resume_state, h]

/-- C7 witness: the round trip at a concrete store and checkpoint. -/
theorem resume_round_trip_witness :
    (load_resume_state
        (save_resume_state (fun _ => some .corrupt) "ABC" { ownerId := none, mediaId := none }
          [] ∅ none none 0 none none false "T1") "ABC" =
      some { post := { ownerId := none, mediaId := none }, commentCount := 0, comments := [],
             seenCommentIds := ∅, cursor := none, lastCursor := none, pages := 0,
             expectedCommentCount := none, stopReason := none, complete := false,
             updatedAt := "T1" })
  ∧ load_resume_state (clear_resume_state (fun _ => some .corrupt) "ABC") "ABC" = none
  ∧ load_resume_state (fun _ => some FileContent.corrupt) "ABC" = none := by
  have h := resume_round_trip (fun _ => some .corrupt) "ABC"
    { ownerId := none, mediaId := none } [] ∅ none none 0 none none false "T1"
  exact ⟨h.1, h.2.1, h.2.2 rfl⟩

theorem Comment.withParent_id (c : Comment) (p : Option String) :
    (c.withParent p).id = c.id := by
  cases c; rfl

theorem Comment.withParent_replies (c : Comment) (p : Option String) :
    (c.withParent p).replies = c.replies := by
  cases c; rfl

theorem Comment.withReplies_id (c : Comment) (rs : List Comment) :
    (c.withReplies rs).id = c.id := by
  cases c; rfl

theorem Comment.withReplies_replies (c : Comment) (rs : List Comment) :
    (c.withReplies rs).replies = rs := by
  cases c; rfl

theorem commentIds_eq (c : Comment) : commentIds c = c.id :: treeIds c.replies := by
  cases c; rfl

theorem parse_comment_node_replies (o : Option String) (n : Node) :
    (parse_comment_node o n).replies = [] := rfl

theorem treeIds_append : ∀ (l₁ l₂ : List Comment),
    treeIds (l₁ ++ l₂) = treeIds l₁ ++ treeIds l₂
  | [], _ => rfl
  | c :: cs, l₂ => by
    simp [treeIds, treeIds_append cs l₂]

theorem treeIds_single_reply (o pid' : Option String) (node : Node) :
    treeIds [(parse_comment_node o node).withParent pid'] =
      [((parse_comment_node o node).withParent pid').id] := by
  simp [treeIds, commentIds_eq, Comment.withParent_replies, parse_comment_node_replies]

theorem addReplies_repinv (o pid' : Option String) (seen₀ : Finset (Option String)) :
    ∀ (edges : List (Option Node)) (seen : Finset (Option String)) (acc : List Comment),
      RepInv seen₀ seen pid' acc →
      RepInv seen₀ (addReplies o pid' edges seen acc).1 pid' (addReplies o pid' edges seen acc).2
  | [], _, _, h => h
  | none :: rest, seen, acc, h => addReplies_repinv o pid' seen₀ rest seen acc h
  | some node :: rest, seen, acc, h => by
    simp only [addReplies]
    by_cases hc : (pyTruthy ((parse_comment_node o node).withParent pid').id &&
        !(decide (((parse_comment_node o node).withParent pid').id ∈ seen))) = true
    · rw [if_pos hc]
      have hidT : pyTruthy ((parse_comment_node o node).withParent pid').id = true :=
        ((Bool.and_eq_true _ _).mp hc).1
      have hnotin : ((parse_comment_node o node).withParent pid').id ∉ seen := by
        have h2 := ((Bool.and_eq_true _ _).mp hc).2
        simpa using h2
      apply addReplies_repinv
      have hids : treeIds (acc ++ [(parse_comment_node o node).withParent pid']) =
          treeIds acc ++ [((parse_comment_node o node).withParent pid').id] := by
        rw [treeIds_append, treeIds_single_reply]
      have hnotmem : ((parse_comment_node o node).withParent pid').id ∉ pid' :: treeIds acc := by
        intro hmem
        exact hnotin (h.inSeen _ hmem)
      constructor
      · exact h.mono.trans (Finset.subset_insert _ _)
      · rw [hids]
        have : pid' :: (treeIds acc ++ [((parse_comment_node o node).withParent pid').id]) =
            (pid' :: treeIds acc) ++ [((parse_comment_node o node).withParent pid').id] := rfl
        rw [this]
        refine List.Nodup.append h.nodup (List.nodup_singleton _) ?_
        intro a ha hb
        simp at hb
        rw [hb] at ha
        exact hnotmem ha
      · intro i hi
        rw [hids] at hi
        rcases List.mem_cons.mp hi with hi | hi
        · exact Finset.mem_insert_of_mem (h.inSeen _ (by simp [hi]))
        · rcases List.mem_append.mp hi with hi | hi
          · exact Finset.mem_insert_of_mem (h.inSeen _ (by simp [hi]))
          · simp at hi
            rw [hi]
            exact Finset.mem_insert_self _ _
      · intro i hi
        rw [hids] at hi
        rcases List.mem_cons.mp hi with hi | hi
        · exact h.fresh _ (by simp [hi])
        · rcases List.mem_append.mp hi with hi | hi
          · exact h.fresh _ (by simp [hi])
          · simp at hi
            rw [hi]
            intro h0
            exact hnotin (h.mono h0)
      · intro c hcmem
        rcases List.mem_append.mp hcmem with hcm | hcm
        · exact h.truthy c hcm
        · simp at hcm
          rw [hcm]
          exact hidT
    · rw [if_neg hc]
      exact addReplies_repinv o pid' seen₀ rest seen acc h

theorem replyLoop_repinv (o pid' : Option String) (seen₀ : Finset (Option String)) :
    ∀ (rscript : List (Option ReplyPage)) (seen : Finset (Option String))
      (acc : List Comment) (cur lastC : Option String),
      RepInv seen₀ seen pid' acc →
      RepInv seen₀ (replyLoop o pid' rscript seen acc cur lastC).2.1 pid'
        (replyLoop o pid' rscript seen acc cur lastC).2.2
  | [], _, _, _, _, h => h
  | none :: _, _, _, _, _, h => h
  | some rp :: rest, seen, acc, cur, lastC, h => by
    simp only [replyLoop]
    have hmerged := addReplies_repinv o pid' seen₀ rp.edges seen acc h
    by_cases h1 : (!rp.pageInfo.hasNextPage) = true
    · rw [if_pos h1]
      exact hmerged
    · rw [if_neg h1]
      by_cases h2 : (!pyTruthy rp.pageInfo.endCursor ||
          decide (rp.pageInfo.endCursor = lastC)) = true
      · rw [if_pos h2]
        exact hmerged
      · rw [if_neg h2]
        exact replyLoop_repinv o pid' seen₀ rest _ _ _ _ hmerged

theorem fetchRepliesPhase_repinv (ctx : Ctx) (pid' : Option String) (nf : Bool)
    (rc0 : Option String) (rscript : List (Option ReplyPage))
    (seen : Finset (Option String)) (acc : List Comment)
    (seen₀ : Finset (Option String))
    (res : List (Option ReplyPage) × Finset (Option String) × List Comment) :
    fetchRepliesPhase ctx pid' nf rc0 rscript seen acc = .ok res →
    RepInv seen₀ seen pid' acc → RepInv seen₀ res.2.1 pid' res.2.2 := by
  intro h hr
  unfold fetchRepliesPhase at h
  by_cases hnf : nf = true
  · rw [if_pos hnf] at h
    rcases hcfg : endpointConfigured ctx.repliesEndpoint with _ | ep <;>
      rw [hcfg] at h <;> (try dsimp only at h)
    · cases h
      exact hr
    · rcases hurl : buildRequestUrlCheck ep with e | u <;>
        rw [hurl] at h <;> (try dsimp only at h)
      · cases h
      · cases h
        exact replyLoop_repinv ctx.postInfo.ownerId pid' seen₀ rscript seen acc rc0 none hr
  · rw [if_neg hnf] at h
    cases h
    exact hr

theorem processEdge_none (ctx : Ctx) (st : PageState) :
    processEdge ctx st none = .ok (st, false) := rfl

theorem processEdge_skip (ctx : Ctx) (st : PageState) (node : Node)
    (hmem : (parse_comment_node ctx.postInfo.ownerId node).id ∈ st.seen) :
    processEdge ctx st (some node) = .ok (st, false) := by
  unfold processEdge
  dsimp only
  rw [if_pos hmem]

theorem processEdge_some (ctx : Ctx) (st : PageState) (node : Node)
    (st' : PageState) (fired : Bool)
    (h : processEdge ctx st (some node) = .ok (st', fired))
    (hmem : (parse_comment_node ctx.postInfo.ownerId node).id ∉ st.seen) :
    ∃ replies₂ rs' seen₃,
      st' = ⟨st.comments ++
               [(parse_comment_node ctx.postInfo.ownerId node).withReplies replies₂],
             seen₃, rs'⟩ ∧
      fired = (!(ctx.maxComments = 0) && decide (ctx.maxComments ≤ seen₃.card)) ∧
      RepInv st.seen seen₃ (parse_comment_node ctx.postInfo.ownerId node).id replies₂ := by
  unfold processEdge at h
  dsimp only at h
  rw [if_neg hmem] at h
  have base : RepInv st.seen
      (insert (parse_comment_node ctx.postInfo.ownerId node).id st.seen)
      ((parse_comment_node ctx.postInfo.ownerId node).id) [] := by
    constructor
    · exact Finset.subset_insert _ _
    · simp [treeIds]
    · intro i hi
      simp [treeIds] at hi
      rw [hi]
      exact Finset.mem_insert_self _ _
    · intro i hi
      simp [treeIds] at hi
      rw [hi]
      exact hmem
    · intro c hc
      simp at hc
  have hmerge : RepInv st.seen
      (if (extract_replies_from_node node).1.isEmpty then
         (insert (parse_comment_node ctx.postInfo.ownerId node).id st.seen, ([] : List Comment))
       else addReplies ctx.postInfo.ownerId (parse_comment_node ctx.postInfo.ownerId node).id
         (extract_replies_from_node node).1
         (insert (parse_comment_node ctx.postInfo.ownerId node).id st.seen) []).1
      ((parse_comment_node ctx.postInfo.ownerId node).id)
      (if (extract_replies_from_node node).1.isEmpty then
         (insert (parse_comment_node ctx.postInfo.ownerId node).id st.seen, ([] : List Comment))
       else addReplies ctx.postInfo.ownerId (parse_comment_node ctx.postInfo.ownerId node).id
         (extract_replies_from_node node).1
         (insert (parse_comment_node ctx.postInfo.ownerId node).id st.seen) []).2 := by
    by_cases hie : (extract_replies_from_node node).1.isEmpty = true
    · rw [if_pos hie]
      exact base
    · rw [if_neg hie]
      exact addReplies_repinv _ _ _ _ _ _ base
  rcases hf : fetchRepliesPhase ctx (parse_comment_node ctx.postInfo.ownerId node).id
      ((ctx.fetchReplies && (endpointConfigured ctx.repliesEndpoint).isSome) &&
        pyTruthy (parse_comment_node ctx.postInfo.ownerId node).id &&
        (decide (((if (extract_replies_from_node node).1.isEmpty then
            (insert (parse_comment_node ctx.postInfo.ownerId node).id st.seen, ([] : List Comment))
          else addReplies ctx.postInfo.ownerId (parse_comment_node ctx.postInfo.ownerId node).id
            (extract_replies_from_node node).1
            (insert (parse_comment_node ctx.postInfo.ownerId node).id st.seen) []).2.length : Int) <
            (parse_comment_node ctx.postInfo.ownerId node).replyCount) ||
          (extract_replies_from_node node).2.hasNextPage))
      (if (extract_replies_from_node node).2.hasNextPage then
        (extract_replies_from_node node).2.endCursor else none)
      st.rscript
      (if (extract_replies_from_node node).1.isEmpty then
         (insert (parse_comment_node ctx.postInfo.ownerId node).id st.seen, ([] : List Comment))
       else addReplies ctx.postInfo.ownerId (parse_comment_node ctx.postInfo.ownerId node).id
         (extract_replies_from_node node).1
         (insert (parse_comment_node ctx.postInfo.ownerId node).id st.seen) []).1
      (if (extract_replies_from_node node).1.isEmpty then
         (insert (parse_comment_node ctx.postInfo.ownerId node).id st.seen, ([] : List Comment))
       else addReplies ctx.postInfo.ownerId (parse_comment_node ctx.postInfo.ownerId node).id
         (extract_replies_from_node node).1
         (insert (parse_comment_node ctx.postInfo.ownerId node).id st.seen) []).2
      with err | res <;> rw [hf] at h
  · cases h
  · rcases res with ⟨rs', seen₃, replies₂⟩
    dsimp only at h
    cases h
    refine ⟨replies₂, rs', seen₃, rfl, rfl, ?_⟩
    have := fetchRepliesPhase_repinv _ _ _ _ _ _ _ _ _ hf hmerge
    exact this

theorem processEdge_inv (ctx : Ctx) (st : PageState) (e : Option Node)
    (st' : PageState) (fired : Bool) :
    processEdge ctx st e = .ok (st', fired) →
    DedupInv st.comments st.seen →
    DedupInv st'.comments st'.seen ∧ st.seen ⊆ st'.seen := by
  intro h hinv
  cases e with
  | none =>
    rw [processEdge_none] at h
    cases h
    exact ⟨hinv, Finset.Subset.refl _⟩
  | some node =>
    by_cases hmem : (parse_comment_node ctx.postInfo.ownerId node).id ∈ st.seen
    · rw [processEdge_skip ctx st node hmem] at h
      cases h
      exact ⟨hinv, Finset.Subset.refl _⟩
    · rcases processEdge_some ctx st node st' fired h hmem with
        ⟨replies₂, rs', seen₃, hst, hfire, hrep⟩
      subst hst
      constructor
      · constructor
        · rw [treeIds_append]
          have hone : treeIds
              [(parse_comment_node ctx.postInfo.ownerId node).withReplies replies₂] =
              (parse_comment_node ctx.postInfo.ownerId node).id :: treeIds replies₂ := by
            simp [treeIds, commentIds_eq, Comment.withReplies_id, Comment.withReplies_replies]
          rw [hone]
          refine List.Nodup.append hinv.1 hrep.nodup ?_
          intro a ha hb
          exact hrep.fresh a hb (hinv.2 a ha)
        · intro i hi
          rw [treeIds_append] at hi
          rcases List.mem_append.mp hi with hi | hi
          · exact hrep.mono (hinv.2 i hi)
          · have hone : treeIds
                [(parse_comment_node ctx.postInfo.ownerId node).withReplies replies₂] =
                (parse_comment_node ctx.postInfo.ownerId node).id :: treeIds replies₂ := by
              simp [treeIds, commentIds_eq, Comment.withReplies_id, Comment.withReplies_replies]
            rw [hone] at hi
            exact hrep.inSeen i hi
      · exact hrep.mono

theorem processEdges_inv (ctx : Ctx) :
    ∀ (es : List (Option Node)) (st : PageState) (st' : PageState) (fired : Bool),
      processEdges ctx es st = .ok (st', fired) →
      DedupInv st.comments st.seen →
      DedupInv st'.comments st'.seen ∧ st.seen ⊆ st'.seen
  | [], st, st', fired, h, hinv => by
    cases h
    exact ⟨hinv, Finset.Subset.refl _⟩
  | e :: es, st, st', fired, h, hinv => by
    unfold processEdges at h
    rcases hpe : processEdge ctx st e with err | pr <;> rw [hpe] at h
    · cases h
    · rcases pr with ⟨st₁, fired₁⟩
      dsimp only at h
      have h1 := processEdge_inv ctx st e st₁ fired₁ hpe hinv
      by_cases hf : fired₁ = true
      · rw [if_pos hf] at h
        cases h
        exact h1
      · rw [if_neg hf] at h
        have h2 := processEdges_inv ctx es st₁ st' fired h h1.1
        exact ⟨h2.1, h1.2.trans h2.2⟩

theorem noPayloadStop_comments (st : LoopState) (script : List (Option Page))
    (rscript : List (Option ReplyPage)) :
    (noPayloadStop st script rscript).state.comments = st.comments ∧
    (noPayloadStop st script rscript).state.seen = st.seen := by
  unfold noPayloadStop rewind
  by_cases hb : canBacktrack st = true <;> simp [hb]

theorem crawlLoop_inv (ctx : Ctx) :
    ∀ (script : List (Option Page)) (rscript : List (Option ReplyPage)) (st : LoopState)
      (out : LoopOutcome), crawlLoop ctx script rscript st = .ok out →
      DedupInv st.comments st.seen →
      DedupInv out.state.comments out.state.seen ∧
      ∀ s, FsEvent.saveResume s ∈ out.trace → DedupInv s.comments s.seenCommentIds := by
  intro script
  induction script with
  | nil =>
    intro rscript st out h hinv
    unfold crawlLoop at h
    rcases hc : endpointConfigured ctx.commentsEndpoint with _ | ep <;>
      rw [hc] at h <;> (try dsimp only at h)
    · cases h
      rcases noPayloadStop_comments st [] rscript with ⟨h1, h2⟩
      refine ⟨by rw [h1, h2]; exact hinv, ?_⟩
      intro s hs
      simp [noPayloadStop] at hs
    · rcases hu : buildRequestUrlCheck ep with e | u <;>
        rw [hu] at h <;> (try dsimp only at h)
      · cases h
      · cases h
        rcases noPayloadStop_comments st [] rscript with ⟨h1, h2⟩
        refine ⟨by rw [h1, h2]; exact hinv, ?_⟩
        intro s hs
        simp [noPayloadStop] at hs
  | cons p rest ih =>
    intro rscript st out h hinv
    cases p with
    | none =>
      unfold crawlLoop at h
      rcases hc : endpointConfigured ctx.commentsEndpoint with _ | ep <;>
        rw [hc] at h <;> (try dsimp only at h)
      · cases h
        rcases noPayloadStop_comments st (none :: rest) rscript with ⟨h1, h2⟩
        refine ⟨by rw [h1, h2]; exact hinv, ?_⟩
        intro s hs
        simp [noPayloadStop] at hs
      · rcases hu : buildRequestUrlCheck ep with e | u <;>
          rw [hu] at h <;> (try dsimp only at h)
        · cases h
        · by_cases hb : canBacktrack st = true
          · rw [if_pos hb] at h
            exact ih rscript (rewind st) out h hinv
          · rw [if_neg hb] at h
            cases h
            exact ⟨hinv, by intro s hs; simp at hs⟩
    | some page =>
      unfold crawlLoop at h
      rcases hc : endpointConfigured ctx.commentsEndpoint with _ | ep <;>
        rw [hc] at h <;> (try dsimp only at h)
      · cases h
        rcases noPayloadStop_comments st (some page :: rest) rscript with ⟨h1, h2⟩
        refine ⟨by rw [h1, h2]; exact hinv, ?_⟩
        intro s hs
        simp [noPayloadStop] at hs
      · rcases hu : buildRequestUrlCheck ep with e | u <;>
          rw [hu] at h <;> (try dsimp only at h)
        · cases h
        · rcases hp : processEdges ctx page.edges ⟨st.comments, st.seen, rscript⟩
            with e | pr <;> rw [hp] at h <;> (try dsimp only at h)
          · cases h
          · rcases pr with ⟨pst, fired⟩
            (try dsimp only at h)
            have hpinv := processEdges_inv ctx page.edges
              ⟨st.comments, st.seen, rscript⟩ pst fired hp hinv
            by_cases hf : fired = true
            · rw [if_pos hf] at h
              cases h
              exact ⟨hpinv.1, by intro s hs; simp at hs⟩
            · rw [if_neg hf] at h
              cases ha : pageAdvance page.pageInfo st.cursor st.lastCursor st.prevCursor with
              | stopAt r c l pv =>
                rw [ha] at h
                dsimp only at h
                cases h
                exact ⟨hpinv.1, by intro s hs; simp at hs⟩
              | nextWith c l pv =>
                rw [ha] at h
                dsimp only at h
                split at h
                · cases h
                · next out₂ hrec =>
                  cases h
                  have hrest := ih _ _ out₂ hrec hpinv.1
                  refine ⟨hrest.1, ?_⟩
                  intro s hs
                  simp only [List.mem_cons] at hs
                  rcases hs with hs | hs
                  · cases hs
                    simpa [mkResumeState] using hpinv.1
                  · exact hrest.2 s hs

/-- C1: across any scripted sequence of pages (with repeated ids, also
between top level and replies) starting from a state satisfying the dedup
invariant — in particular the fresh state, or any checkpoint that satisfies
it — every unique id appears exactly once in the flattened id list of the
final comment tree, and every checkpoint written during or after the crawl
carries a seen-id set containing every id in its comment tree. -/
theorem crawl_dedup_invariant (cfg : Config) (postUrl : String)
    (maxOverride : Option Nat) (resume : Option Bool) (resumeLoaded : Option ResumeState)
    (resolveOracle : Option PostInfo) (htmlOracle : Option String)
    (script : List (Option Page)) (rscript : List (Option ReplyPage)) (run : CrawlRun) :
    crawl_post_comments cfg postUrl maxOverride resume resumeLoaded resolveOracle
      htmlOracle script rscript = .ok run →
    (∀ s, effectiveResume (resume.getD cfg.resumeByDefault) resumeLoaded = some s →
        DedupInv s.comments s.seenCommentIds) →
    (treeIds run.result.comments).Nodup ∧
    (∀ i ∈ treeIds run.result.comments, i ∈ run.finalState.seen) ∧
    (∀ s, FsEvent.saveResume s ∈ run.trace →
        ∀ i ∈ treeIds s.comments, i ∈ s.seenCommentIds) := by
  intro h hres
  have hrun : ∃ ctx st0, runLoop ctx st0 script rscript = .ok run ∧
      DedupInv st0.comments st0.seen := by
    unfold crawl_post_comments at h
    rcases hsc : extract_shortcode postUrl with _ | sc <;>
      rw [hsc] at h <;> (try dsimp only at h)
    · cases h
    · rcases heff : effectiveResume (resume.getD cfg.resumeByDefault) resumeLoaded
        with _ | s <;> rw [heff] at h <;> (try dsimp only at h)
      · rcases hr : resolve_media_id cfg sc resolveOracle htmlOracle with e | mp <;>
          rw [hr] at h <;> (try dsimp only at h)
        · cases h
        · rcases mp with ⟨m, pinfo⟩
          (try dsimp only at h)
          refine ⟨_, _, h, ?_⟩
          constructor
          · exact List.nodup_nil
          · intro i hi
            simp [freshState, treeIds] at hi
      · refine ⟨_, _, h, ?_⟩
        have := hres s heff
        exact ⟨this.1, this.2⟩
  rcases hrun with ⟨ctx, st0, hrl, hinv0⟩
  unfold runLoop at hrl
  rcases hl : crawlLoop ctx script rscript st0 with e | out <;> rw [hl] at hrl
  · cases hrl
  · cases hrl
    have hmain := crawlLoop_inv ctx script rscript st0 out hl hinv0
    refine ⟨hmain.1.1, hmain.1.2, ?_⟩
    intro s hs
    simp only [List.mem_append] at hs
    rcases hs with hs | hs
    · exact (hmain.2 s hs).2
    · unfold finalizeCrawl at hs
      by_cases hcm : crawlComplete (some out.stopReason) = true
      · simp [hcm] at hs
      · simp [hcm] at hs
        subst hs
        intro i hi
        exact hmain.1.2 i (by simpa [mkResumeState] using hi)

/-- C1 witness: a concrete crawl whose pages repeat an id at top level and
also offer an already-seen id as a reply. -/
theorem crawl_dedup_invariant_witness :
    ∃ run, crawl_post_comments
      { commentsEndpoint := some { url := some "u", docId := some "1" },
        repliesEndpoint := some { url := some "r", docId := some "2" },
        postByShortcode := none, fetchReplies := true, maxComments := 0,
        resumeByDefault := false, now := "T" }
      "https://www.instagram.com/p/ABC/" none none none none none
      [some { edges := [some (.mk (some "a") none none none none none none none),
                        some (.mk (some "b") none none none none none none
                          (some (some 2,
                            [some (.mk (some "r1") none none none none none none none)],
                            { hasNextPage := false, endCursor := none })))],
              pageInfo := { hasNextPage := true, endCursor := some "c1" }, count := some 10 },
       some { edges := [some (.mk (some "a") none none none none none none none),
                        some (.mk (some "c") none none none none none none none)],
              pageInfo := { hasNextPage := false, endCursor := none }, count := some 10 }]
      [some { edges := [some (.mk (some "r2") none none none none none none none),
                        some (.mk (some "a") none none none none none none none)],
              pageInfo := { hasNextPage := false, endCursor := none } }] = .ok run ∧
    ((treeIds run.result.comments).Nodup ∧
     (∀ i ∈ treeIds run.result.comments, i ∈ run.finalState.seen) ∧
     (∀ s, FsEvent.saveResume s ∈ run.trace →
        ∀ i ∈ treeIds s.comments, i ∈ s.seenCommentIds)) := by
  have h := crawl_dedup_invariant
    { commentsEndpoint := some { url := some "u", docId := some "1" },
      repliesEndpoint := some { url := some "r", docId := some "2" },
      postByShortcode := none, fetchReplies := true, maxComments := 0,
      resumeByDefault := false, now := "T" }
    "https://www.instagram.com/p/ABC/" none none none none none
    [some { edges := [some (.mk (some "a") none none none none none none none),
                      some (.mk (some "b") none none none none none none
                        (some (some 2,
                          [some (.mk (some "r1") none none none none none none none)],
                          { hasNextPage := false, endCursor := none })))],
            pageInfo := { hasNextPage := true, endCursor := some "c1" }, count := some 10 },
     some { edges := [some (.mk (some "a") none none none none none none none),
                      some (.mk (some "c") none none none none none none none)],
            pageInfo := { hasNextPage := false, endCursor := none }, count := some 10 }]
    [some { edges := [some (.mk (some "r2") none none none none none none none),
                      some (.mk (some "a") none none none none none none none)],
            pageInfo := { hasNextPage := false, endCursor := none } }]
    _ rfl (fun s hs => nomatch hs)
  exact ⟨_, rfl, h⟩

theorem addReplies_new_truthy (o pid' : Option String) :
    ∀ (edges : List (Option Node)) (seen : Finset (Option String)) (acc : List Comment),
      ∀ c ∈ (addReplies o pid' edges seen acc).2, c ∈ acc ∨ pyTruthy c.id = true
  | [], _, _, _, hc => .inl hc
  | none :: rest, seen, acc, c, hc => addReplies_new_truthy o pid' rest seen acc c hc
  | some node :: rest, seen, acc, c, hc => by
    simp only [addReplies] at hc
    by_cases hcnd : (pyTruthy ((parse_comment_node o node).withParent pid').id &&
        !(decide (((parse_comment_node o node).withParent pid').id ∈ seen))) = true
    · rw [if_pos hcnd] at hc
      rcases addReplies_new_truthy o pid' rest _ _ c hc with hin | ht
      · rcases List.mem_append.mp hin with hin | hin
        · exact .inl hin
        · simp only [List.mem_singleton] at hin
          right
          rw [hin]
          exact ((Bool.and_eq_true _ _).mp hcnd).1
      · exact .inr ht
    · rw [if_neg hcnd] at hc
      exact addReplies_new_truthy o pid' rest seen acc c hc

theorem replyLoop_new_truthy (o pid' : Option String) :
    ∀ (rscript : List (Option ReplyPage)) (seen : Finset (Option String))
      (acc : List Comment) (cur lastC : Option String),
      ∀ c ∈ (replyLoop o pid' rscript seen acc cur lastC).2.2,
        c ∈ acc ∨ pyTruthy c.id = true
  | [], _, _, _, _, _, hc => .inl hc
  | none :: _, _, _, _, _, _, hc => .inl hc
  | some rp :: rest, seen, acc, cur, lastC, c, hc => by
    simp only [replyLoop] at hc
    by_cases h1 : (!rp.pageInfo.hasNextPage) = true
    · rw [if_pos h1] at hc
      exact addReplies_new_truthy o pid' rp.edges seen acc c hc
    · rw [if_neg h1] at hc
      by_cases h2 : (!pyTruthy rp.pageInfo.endCursor ||
          decide (rp.pageInfo.endCursor = lastC)) = true
      · rw [if_pos h2] at hc
        exact addReplies_new_truthy o pid' rp.edges seen acc c hc
      · rw [if_neg h2] at hc
        rcases replyLoop_new_truthy o pid' rest _ _ _ _ c hc with hin | ht
        · exact addReplies_new_truthy o pid' rp.edges seen acc c hin
        · exact .inr ht

/-- C10: a raw node with neither `id` nor `pk` parses to a comment whose id
is `none`; the loop appends the first such comment, adding `none` to the
seen set (its attached replies all carry truthy ids), and skips every later
id-less top-level node as a duplicate; id-less replies are never appended by
either reply loop. -/
theorem idless_nodes (ctx : Ctx) (st : PageState) (node : Node) :
    (node.idF = none → node.pkF = none →
       (parse_comment_node ctx.postInfo.ownerId node).id = none)
  ∧ (node.idF = none → node.pkF = none → none ∈ st.seen →
       processEdge ctx st (some node) = .ok (st, false))
  ∧ (node.idF = none → node.pkF = none → none ∉ st.seen →
       ∀ (st' : PageState) (fired : Bool), processEdge ctx st (some node) = .ok (st', fired) →
         ∃ c seen₃ rs',
           st' = ⟨st.comments ++ [c], seen₃, rs'⟩ ∧ c.id = none ∧
           none ∈ seen₃ ∧ ∀ r ∈ c.replies, pyTruthy r.id = true)
  ∧ (∀ (o pid' : Option String) (edges : List (Option Node))
       (seen : Finset (Option String)) (acc : List Comment),
       ∀ c ∈ (addReplies o pid' edges seen acc).2, c ∈ acc ∨ pyTruthy c.id = true)
  ∧ (∀ (o pid' : Option String) (rscript : List (Option ReplyPage))
       (seen : Finset (Option String)) (acc : List Comment) (cur lastC : Option String),
       ∀ c ∈ (replyLoop o pid' rscript seen acc cur lastC).2.2,
         c ∈ acc ∨ pyTruthy c.id = true) := by
  have hid : node.idF = none → node.pkF = none →
      (parse_comment_node ctx.postInfo.ownerId node).id = none := by
    intro h1 h2
    have : (parse_comment_node ctx.postInfo.ownerId node).id =
        pyOrS node.idF node.pkF := rfl
    rw [this, h1, h2]
    rfl
  refine ⟨hid, ?_, ?_, addReplies_new_truthy, replyLoop_new_truthy⟩
  · intro h1 h2 hmem
    have hp := hid h1 h2
    apply processEdge_skip
    rw [hp]
    exact hmem
  · intro h1 h2 hmem st' fired h
    have hp := hid h1 h2
    have hnot : (parse_comment_node ctx.postInfo.ownerId node).id ∉ st.seen := by
      rw [hp]
      exact hmem
    rcases processEdge_some ctx st node st' fired h hnot with
      ⟨replies₂, rs', seen₃, hst, _, hrep⟩
    refine ⟨(parse_comment_node ctx.postInfo.ownerId node).withReplies replies₂,
            seen₃, rs', hst, ?_, ?_, ?_⟩
    · rw [Comment.withReplies_id, hp]
    · have := hrep.inSeen _ (List.mem_cons_self _ _)
      rw [hp] at this
      exact this
    · intro r hr
      rw [Comment.withReplies_replies] at hr
      exact hrep.truthy r hr

/-- C10 witness: a concrete id-less node is appended once with id `none`
and skipped when `none` is already seen. -/
theorem idless_nodes_witness :
    ((parse_comment_node none
        (Node.mk none none none none none none none none)).id = none)
  ∧ (processEdge
       { commentsEndpoint := some { url := some "u", docId := some "1" },
         repliesEndpoint := none, fetchReplies := true, maxComments := 0,
         postInfo := { ownerId := none, mediaId := none }, now := "T" }
       { comments := [], seen := {none}, rscript := [] }
       (some (Node.mk none none none none none none none none)) =
     .ok ({ comments := [], seen := {none}, rscript := [] }, false))
  ∧ (∃ (st' : PageState) (fired : Bool), processEdge
       { commentsEndpoint := some { url := some "u", docId := some "1" },
         repliesEndpoint := none, fetchReplies := true, maxComments := 0,
         postInfo := { ownerId := none, mediaId := none }, now := "T" }
       { comments := [], seen := ∅, rscript := [] }
       (some (Node.mk none none none none none none none none)) = .ok (st', fired) ∧
     ∃ c seen₃ rs', st' = ⟨[] ++ [c], seen₃, rs'⟩ ∧ c.id = none ∧ none ∈ seen₃ ∧
       ∀ r ∈ c.replies, pyTruthy r.id = true) := by
  have hA := idless_nodes
    { commentsEndpoint := some { url := some "u", docId := some "1" },
      repliesEndpoint := none, fetchReplies := true, maxComments := 0,
      postInfo := { ownerId := none, mediaId := none }, now := "T" }
    { comments := [], seen := ∅, rscript := [] }
    (Node.mk none none none none none none none none)
  have hB := idless_nodes
    { commentsEndpoint := some { url := some "u", docId := some "1" },
      repliesEndpoint := none, fetchReplies := true, maxComments := 0,
      postInfo := { ownerId := none, mediaId := none }, now := "T" }
    { comments := [], seen := {none}, rscript := [] }
    (Node.mk none none none none none none none none)
  refine ⟨hA.1 rfl rfl, hB.2.1 rfl rfl (by simp), ?_⟩
  exact ⟨_, _, rfl, hA.2.2.1 rfl rfl (by simp) _ _ rfl⟩

/-- C5: on a total page failure the loop rewinds to the previous cursor and
retries exactly when a truthy previous cursor exists, differs from the
current one, and backtracking is unused since the last successful page
(which resets the flag); otherwise it stops with `no_payload`.  The retry
happens at most once: two consecutive total failures always stop the crawl
with `no_payload`. -/
theorem backtrack_policy (ctx : Ctx) (ep : Endpoint)
    (hc : endpointConfigured ctx.commentsEndpoint = some ep)
    (hu : pyTruthy ep.url = true) :
    (∀ (rest : List (Option Page)) (rscript : List (Option ReplyPage)) (st : LoopState),
       (canBacktrack st = true →
          crawlLoop ctx (none :: rest) rscript st = crawlLoop ctx rest rscript (rewind st))
     ∧ (canBacktrack st = false →
          crawlLoop ctx (none :: rest) rscript st =
            .ok { state := st, stopReason := .no_payload, trace := [],
                  rscript := rscript, script := rest }))
  ∧ (∀ st : LoopState, canBacktrack st =
       (pyTruthy st.prevCursor && decide (st.prevCursor ≠ st.cursor) && !st.backtrackUsed))
  ∧ (∀ (rest : List (Option Page)) (rscript : List (Option ReplyPage)) (st : LoopState)
       (out : LoopOutcome),
       crawlLoop ctx (none :: none :: rest) rscript st = .ok out →
       out.stopReason = .no_payload) := by
  have hok : buildRequestUrlCheck ep = .ok () := by
    unfold buildRequestUrlCheck
    rw [hu]
    rfl
  have hstep : ∀ (rest : List (Option Page)) (rscript : List (Option ReplyPage))
      (st : LoopState),
      (canBacktrack st = true →
         crawlLoop ctx (none :: rest) rscript st = crawlLoop ctx rest rscript (rewind st))
    ∧ (canBacktrack st = false →
         crawlLoop ctx (none :: rest) rscript st =
           .ok { state := st, stopReason := .no_payload, trace := [],
                 rscript := rscript, script := rest }) := by
    intro rest rscript st
    constructor
    · intro hb
      conv_lhs => unfold crawlLoop
      simp only [hc, hok]
      rw [if_pos hb]
    · intro hb
      conv_lhs => unfold crawlLoop
      simp only [hc, hok]
      rw [if_neg (by rw [hb]; exact Bool.false_ne_true)]
  refine ⟨hstep, fun _ => rfl, ?_⟩
  intro rest rscript st out h
  by_cases hb : canBacktrack st = true
  · rw [(hstep (none :: rest) rscript st).1 hb] at h
    have hb2 : canBacktrack (rewind st) = false := by
      simp [canBacktrack, rewind]
    rw [(hstep rest rscript (rewind st)).2 hb2] at h
    cases h
    rfl
  · rw [(hstep (none :: rest) rscript st).2 (Bool.not_eq_true _ |>.mp hb)] at h
    cases h
    rfl

/-- C5 witness: with a truthy differing previous cursor the failure rewinds
once; two consecutive failures stop with `no_payload`. -/
theorem backtrack_policy_witness :
    (crawlLoop
        { commentsEndpoint := some { url := some "u", docId := some "1" },
          repliesEndpoint := none, fetchReplies := false, maxComments := 0,
          postInfo := { ownerId := none, mediaId := none }, now := "T" }
        [none] []
        { comments := [], seen := ∅, cursor := some "c2", lastCursor := some "c2",
          prevCursor := some "c1", backtrackUsed := false, pages := 2, totalCount := none } =
      crawlLoop
        { commentsEndpoint := some { url := some "u", docId := some "1" },
          repliesEndpoint := none, fetchReplies := false, maxComments := 0,
          postInfo := { ownerId := none, mediaId := none }, now := "T" }
        [] []
        (rewind
          { comments := [], seen := ∅, cursor := some "c2", lastCursor := some "c2",
            prevCursor := some "c1", backtrackUsed := false, pages := 2,
            totalCount := none }))
  ∧ (∃ out, crawlLoop
        { commentsEndpoint := some { url := some "u", docId := some "1" },
          repliesEndpoint := none, fetchReplies := false, maxComments := 0,
          postInfo := { ownerId := none, mediaId := none }, now := "T" }
        [none, none] []
        { comments := [], seen := ∅, cursor := some "c2", lastCursor := some "c2",
          prevCursor := some "c1", backtrackUsed := false, pages := 2,
          totalCount := none } = .ok out ∧ out.stopReason = .no_payload) := by
  have h := backtrack_policy
    { commentsEndpoint := some { url := some "u", docId := some "1" },
      repliesEndpoint := none, fetchReplies := false, maxComments := 0,
      postInfo := { ownerId := none, mediaId := none }, now := "T" }
    { url := some "u", docId := some "1" } rfl rfl
  refine ⟨(h.1 [] []
    { comments := [], seen := ∅, cursor := some "c2", lastCursor := some "c2",
      prevCursor := some "c1", backtrackUsed := false, pages := 2,
      totalCount := none }).1 rfl, ?_⟩
  exact ⟨_, rfl, h.2.2 [] []
    { comments := [], seen := ∅, cursor := some "c2", lastCursor := some "c2",
      prevCursor := some "c1", backtrackUsed := false, pages := 2,
      totalCount := none } _ rfl⟩

theorem pageAdvance_stopAt_cases (pi : PageInfo) (c l p : Option String) (r : StopReason)
    (c' l' p' : Option String) :
    pageAdvance pi c l p = .stopAt r c' l' p' →
    r = .no_more_pages ∨ r = .missing_cursor ∨ r = .cursor_stalled := by
  unfold pageAdvance
  by_cases h1 : (!pi.hasNextPage) = true
  · rw [if_pos h1]
    intro h
    cases h
    exact .inl rfl
  · rw [if_neg h1]
    dsimp only
    by_cases h2 : (!pyTruthy pi.endCursor) = true
    · rw [if_pos h2]
      intro h
      cases h
      exact .inr (.inl rfl)
    · rw [if_neg h2]
      by_cases h3 : pi.endCursor = l
      · rw [if_pos h3]
        intro h
        cases h
        exact .inr (.inr rfl)
      · rw [if_neg h3]
        intro h
        cases h

theorem processEdge_fired (ctx : Ctx) (st : PageState) (e : Option Node) (st₁ : PageState) :
    processEdge ctx st e = .ok (st₁, true) →
    ctx.maxComments ≠ 0 ∧ ctx.maxComments ≤ st₁.seen.card := by
  intro h
  cases e with
  | none =>
    rw [processEdge_none] at h
    cases h
  | some node =>
    by_cases hmem : (parse_comment_node ctx.postInfo.ownerId node).id ∈ st.seen
    · rw [processEdge_skip ctx st node hmem] at h
      cases h
    · rcases processEdge_some ctx st node st₁ true h hmem with
        ⟨replies₂, rs', seen₃, hst, hfire, _⟩
      have hand := (Bool.and_eq_true _ _).mp hfire.symm
      constructor
      · intro h0
        rw [h0] at hand
        simp at hand
      · have := of_decide_eq_true hand.2
        rw [hst]
        exact this

theorem processEdges_fired (ctx : Ctx) :
    ∀ (es : List (Option Node)) (st st' : PageState),
      processEdges ctx es st = .ok (st', true) →
      ctx.maxComments ≠ 0 ∧ ctx.maxComments ≤ st'.seen.card
  | [], st, st', h => by cases h
  | e :: es, st, st', h => by
    unfold processEdges at h
    rcases hpe : processEdge ctx st e with err | pr <;> rw [hpe] at h
    · cases h
    · rcases pr with ⟨stA, firedA⟩
      dsimp only at h
      by_cases hf : firedA = true
      · rw [if_pos hf] at h
        cases h
        rw [hf] at hpe
        exact processEdge_fired ctx st e st' hpe
      · rw [if_neg hf] at h
        exact processEdges_fired ctx es stA st' h

theorem crawlLoop_max (ctx : Ctx) :
    ∀ (script : List (Option Page)) (rscript : List (Option ReplyPage)) (st : LoopState)
      (out : LoopOutcome), crawlLoop ctx script rscript st = .ok out →
      out.stopReason = .max_reached →
      ctx.maxComments ≠ 0 ∧ ctx.maxComments ≤ out.state.seen.card := by
  intro script
  induction script with
  | nil =>
    intro rscript st out h hmr
    unfold crawlLoop at h
    rcases hc : endpointConfigured ctx.commentsEndpoint with _ | ep <;>
      rw [hc] at h <;> (try dsimp only at h)
    · cases h
      cases hmr
    · rcases hu : buildRequestUrlCheck ep with e | u <;>
        rw [hu] at h <;> (try dsimp only at h)
      · cases h
      · cases h
        cases hmr
  | cons p rest ih =>
    intro rscript st out h hmr
    cases p with
    | none =>
      unfold crawlLoop at h
      rcases hc : endpointConfigured ctx.commentsEndpoint with _ | ep <;>
        rw [hc] at h <;> (try dsimp only at h)
      · cases h
        cases hmr
      · rcases hu : buildRequestUrlCheck ep with e | u <;>
          rw [hu] at h <;> (try dsimp only at h)
        · cases h
        · by_cases hb : canBacktrack st = true
          · rw [if_pos hb] at h
            exact ih rscript (rewind st) out h hmr
          · rw [if_neg hb] at h
            cases h
            cases hmr
    | some page =>
      unfold crawlLoop at h
      rcases hc : endpointConfigured ctx.commentsEndpoint with _ | ep <;>
        rw [hc] at h <;> (try dsimp only at h)
      · cases h
        cases hmr
      · rcases hu : buildRequestUrlCheck ep with e | u <;>
          rw [hu] at h <;> (try dsimp only at h)
        · cases h
        · rcases hp : processEdges ctx page.edges ⟨st.comments, st.seen, rscript⟩
            with e | pr <;> rw [hp] at h <;> (try dsimp only at h)
          · cases h
          · rcases pr with ⟨pst, fired⟩
            (try dsimp only at h)
            by_cases hf : fired = true
            · rw [if_pos hf] at h
              cases h
              rw [hf] at hp
              exact processEdges_fired ctx page.edges ⟨st.comments, st.seen, rscript⟩ pst hp
            · rw [if_neg hf] at h
              cases ha : pageAdvance page.pageInfo st.cursor st.lastCursor st.prevCursor with
              | stopAt r c l pv =>
                rw [ha] at h
                dsimp only at h
                cases h
                rcases pageAdvance_stopAt_cases _ _ _ _ _ _ _ _ ha with h1 | h1 | h1 <;>
                  rw [h1] at hmr <;> cases hmr
              | nextWith c l pv =>
                rw [ha] at h
                dsimp only at h
                split at h
                · cases h
                · next out₂ hrec =>
                  cases h
                  exact ih _ _ out₂ hrec hmr

theorem crawlLoop_extend (ctx : Ctx) :
    ∀ (s₁ : List (Option Page)) (rscript : List (Option ReplyPage)) (st : LoopState)
      (out : LoopOutcome), crawlLoop ctx s₁ rscript st = .ok out →
      out.stopReason ≠ .no_payload →
      ∀ s₂, crawlLoop ctx (s₁ ++ s₂) rscript st =
        .ok { out with script := out.script ++ s₂ } := by
  intro s₁
  induction s₁ with
  | nil =>
    intro rscript st out h hnp s₂
    unfold crawlLoop at h
    rcases hc : endpointConfigured ctx.commentsEndpoint with _ | ep <;>
      rw [hc] at h <;> (try dsimp only at h)
    · cases h
      exact absurd rfl hnp
    · rcases hu : buildRequestUrlCheck ep with e | u <;>
        rw [hu] at h <;> (try dsimp only at h)
      · cases h
      · cases h
        exact absurd rfl hnp
  | cons p rest ih =>
    intro rscript st out h hnp s₂
    cases p with
    | none =>
      unfold crawlLoop at h
      rcases hc : endpointConfigured ctx.commentsEndpoint with _ | ep <;>
        rw [hc] at h <;> (try dsimp only at h)
      · cases h
        exact absurd rfl hnp
      · rcases hu : buildRequestUrlCheck ep with e | u <;>
          rw [hu] at h <;> (try dsimp only at h)
        · cases h
        · by_cases hb : canBacktrack st = true
          · rw [if_pos hb] at h
            have := ih rscript (rewind st) out h hnp s₂
            rw [List.cons_append]
            conv_lhs => unfold crawlLoop
            simp only [hc, hu]
            rw [if_pos hb]
            exact this
          · rw [if_neg hb] at h
            cases h
            exact absurd rfl hnp
    | some page =>
      unfold crawlLoop at h
      rcases hc : endpointConfigured ctx.commentsEndpoint with _ | ep <;>
        rw [hc] at h <;> (try dsimp only at h)
      · cases h
        exact absurd rfl hnp
      · rcases hu : buildRequestUrlCheck ep with e | u <;>
          rw [hu] at h <;> (try dsimp only at h)
        · cases h
        · rw [List.cons_append]
          conv_lhs => unfold crawlLoop
          simp only [hc, hu]
          rcases hp : processEdges ctx page.edges ⟨st.comments, st.seen, rscript⟩
            with e | pr
          · (try rw [hp] at h)
            (try dsimp only at h)
            cases h
          · (try rw [hp] at h)
            (try rw [hp])
            (try dsimp only at h ⊢)
            rcases pr with ⟨pst, fired⟩
            (try dsimp only at h ⊢)
            by_cases hf : fired = true
            · rw [if_pos hf] at h ⊢
              cases h
              rfl
            · rw [if_neg hf] at h ⊢
              cases ha : pageAdvance page.pageInfo st.cursor st.lastCursor st.prevCursor with
              | stopAt r c l pv =>
                (try rw [ha] at h)
                (try rw [ha])
                (try dsimp only at h ⊢)
                cases h
                rfl
              | nextWith c l pv =>
                (try rw [ha] at h)
                (try rw [ha])
                (try dsimp only at h ⊢)
                split at h
                · cases h
                · next out₂ hrec =>
                  cases h
                  rw [ih _ _ out₂ hrec hnp s₂]

/-- C4: when a maximum is configured (nonzero), the max check fires
immediately after a comment is appended with the global unique-id count
(reply ids included) at or past the maximum, ignoring the rest of the page;
a crawl stopping with `max_reached` has seen-count at least the maximum and
consumes no further pages: extending the script beyond the crossing page
leaves the whole outcome unchanged. -/
theorem max_reached_policy (ctx : Ctx) :
    (∀ (st : PageState) (e : Option Node) (es : List (Option Node)) (st₁ : PageState),
       processEdge ctx st e = .ok (st₁, true) →
       processEdges ctx (e :: es) st = .ok (st₁, true))
  ∧ (∀ (st : PageState) (e : Option Node) (st₁ : PageState),
       processEdge ctx st e = .ok (st₁, true) →
       ctx.maxComments ≠ 0 ∧ ctx.maxComments ≤ st₁.seen.card)
  ∧ (∀ (script : List (Option Page)) (rscript : List (Option ReplyPage)) (st : LoopState)
       (out : LoopOutcome),
       crawlLoop ctx script rscript st = .ok out →
       out.stopReason = .max_reached →
       ctx.maxComments ≠ 0 ∧ ctx.maxComments ≤ out.state.seen.card ∧
       ∀ s₂, crawlLoop ctx (script ++ s₂) rscript st =
         .ok { out with script := out.script ++ s₂ }) := by
  refine ⟨?_, processEdge_fired ctx, ?_⟩
  · intro st e es st₁ h
    unfold processEdges
    rw [h]
    dsimp only
    rw [if_pos rfl]
  · intro script rscript st out h hmr
    rcases crawlLoop_max ctx script rscript st out h hmr with ⟨h1, h2⟩
    refine ⟨h1, h2, ?_⟩
    intro s₂
    exact crawlLoop_extend ctx script rscript st out h (by rw [hmr]; exact fun hx => nomatch hx) s₂

/-- C4 witness: with max 1 a two-comment page stops after its first comment
and a further scripted page is never fetched. -/
theorem max_reached_policy_witness :
    ∃ out, crawlLoop
      { commentsEndpoint := some { url := some "u", docId := some "1" },
        repliesEndpoint := none, fetchReplies := false, maxComments := 1,
        postInfo := { ownerId := none, mediaId := none }, now := "T" }
      [some { edges := [some (.mk (some "a") none none none none none none none),
                        some (.mk (some "b") none none none none none none none)],
              pageInfo := { hasNextPage := true, endCursor := some "c1" }, count := none }]
      [] freshState = .ok out ∧
    out.stopReason = .max_reached ∧
    1 ≤ out.state.seen.card ∧
    crawlLoop
      { commentsEndpoint := some { url := some "u", docId := some "1" },
        repliesEndpoint := none, fetchReplies := false, maxComments := 1,
        postInfo := { ownerId := none, mediaId := none }, now := "T" }
      ([some { edges := [some (.mk (some "a") none none none none none none none),
                         some (.mk (some "b") none none none none none none none)],
               pageInfo := { hasNextPage := true, endCursor := some "c1" }, count := none }] ++
       [some { edges := [], pageInfo := { hasNextPage := false, endCursor := none },
               count := none }])
      [] freshState = .ok { out with script := out.script ++
        [some { edges := [], pageInfo := { hasNextPage := false, endCursor := none },
                count := none }] } := by
  have h := (max_reached_policy
    { commentsEndpoint := some { url := some "u", docId := some "1" },
      repliesEndpoint := none, fetchReplies := false, maxComments := 1,
      postInfo := { ownerId := none, mediaId := none }, now := "T" }).2.2
    [some { edges := [some (.mk (some "a") none none none none none none none),
                      some (.mk (some "b") none none none none none none none)],
            pageInfo := { hasNextPage := true, endCursor := some "c1" }, count := none }]
    [] freshState _ rfl rfl
  exact ⟨_, rfl, rfl, h.2.1, h.2.2
    [some { edges := [], pageInfo := { hasNextPage := false, endCursor := none },
            count := none }]⟩

/-- C9: the embedded crawl evaluated at the failing input.  The post URL is
valid (its shortcode extracts), yet the crawl raises: with the comments
endpoint configured (usable doc id) but lacking a URL, `build_request`'s
`ValueError("Endpoint URL missing")` escapes `crawl_post_comments`, whose
try block catches only `KeyboardInterrupt` and `StopIteration` — no result
is written and no stop reason is produced.  This contradicts the documented
error-handling design (nothing fatal except an invalid post URL; every
other failure finalizes with a stop reason and a written result).  Further
fatal inputs exist in the source outside this typed model: a 200 response
whose decoded body is truthy but not a dict crashes on `payload.get` inside
`find_connection_in_data`, and truthy non-dict `page_info` or node values
crash on their `.get` accesses in the loop and in `parse_comment_node`. -/
theorem fatal_error_at_failing_input :
    extract_shortcode "https://www.instagram.com/p/ABC/" = some "ABC" ∧
    crawl_post_comments
      { commentsEndpoint := some { url := none, docId := some "1" },
        repliesEndpoint := none, postByShortcode := none, fetchReplies := false,
        maxComments := 0, resumeByDefault := false, now := "T" }
      "https://www.instagram.com/p/ABC/" none none none none none
      [some { edges := [], pageInfo := { hasNextPage := false, endCursor := none },
              count := none }] [] =
      .error .endpointUrlMissing := ⟨rfl, rfl⟩

end IGC
